import Mathlib

/-!
Verification development for the bus-tracker transit analytics service.

The definitions below are a shallow embedding of the TypeScript source:

* `src/src/endpoints/onTimePerformance.ts` — the on-time-performance
  aggregation engine (aggregates, merging, statistics, daily cache loop,
  filter handling);
* `src/src/utils/cacheManager.ts` — the daily cache (`isCurrentServiceDay`);
* `src/src/utils/schedule.ts` — the schedule resolver
  (`getServiceIds`, `getDateFromTimestamp`, `toDateString`);
* `src/src/utils/fetchRealtime.ts` — realtime ingestion delay correlation
  (`getDelayInfo` and the persisted delay/next-stop fields);
* `src/src/endpoints/blockDetails.ts` — the block/bus graph tracer;
* `src/src/endpoints/blockCancelCount.ts` — the cancellation streak walk.

Modelling conventions: JavaScript numbers are embedded as `ℚ` (all the
arithmetic the claims touch is exact in ℚ; see the note at `p90Index` for
the one `Math.ceil` on a float, which provably agrees with the rational
computation), counters as `ℕ`, SQL rows as Lean structures, SQL queries as
filters/lookups over lists or as explicit function parameters, and
JavaScript `Record`s as association lists in insertion order.  Mutation is
embedded as state passing.
-/

namespace BusTracker

/-- Trip counters of an aggregate (`Counts` in onTimePerformance.ts /
cacheManager.ts).  The TypeScript fields are numbers that are only ever
incremented by 1 or summed, so they are embedded as `ℕ`. -/
structure Counts where
  totalScheduled : ℕ
  evaluatedTrips : ℕ
  onTimeTrips : ℕ
  canceledTrips : ℕ
  deriving Repr, DecidableEq

/-- Counters together with the raw per-trip absolute delay list
(`AggregateWithDelays` in onTimePerformance.ts). -/
structure AggregateWithDelays where
  counts : Counts
  delays : List ℚ
  deriving Repr, DecidableEq

/-- `createAggregate()` from onTimePerformance.ts: all counters zero,
empty delay list. -/
def createAggregate : AggregateWithDelays :=
  { counts := { totalScheduled := 0, evaluatedTrips := 0, onTimeTrips := 0, canceledTrips := 0 },
    delays := [] }

/-- `updateAggregate(agg, onTime, isCanceled, delayMinutes)` from
onTimePerformance.ts, embedded as a pure state transformer.  `onTime` is
`boolean | null`, `delayMinutes` is `number | null`; the code pushes
`Math.abs(delayMinutes)` onto the delay list. -/
def updateAggregate (agg : AggregateWithDelays) (onTime : Option Bool)
    (isCanceled : Bool) (delayMinutes : Option ℚ) : AggregateWithDelays :=
  let c0 := agg.counts
  let c1 := { c0 with totalScheduled := c0.totalScheduled + 1 }
  let c2 := if isCanceled then { c1 with canceledTrips := c1.canceledTrips + 1 } else c1
  let c3 :=
    match onTime with
    | none => c2
    | some b =>
        let c := { c2 with evaluatedTrips := c2.evaluatedTrips + 1 }
        if b then { c with onTimeTrips := c.onTimeTrips + 1 } else c
  let d :=
    match delayMinutes with
    | none => agg.delays
    | some m => agg.delays ++ [|m|]
  { counts := c3, delays := d }

/-- `mergeAggregate(target, source)` from onTimePerformance.ts: counters are
summed component-wise, the source delay list is appended to the target's. -/
def mergeAggregate (target source : AggregateWithDelays) : AggregateWithDelays :=
  { counts :=
      { totalScheduled := target.counts.totalScheduled + source.counts.totalScheduled,
        evaluatedTrips := target.counts.evaluatedTrips + source.counts.evaluatedTrips,
        onTimeTrips := target.counts.onTimeTrips + source.counts.onTimeTrips,
        canceledTrips := target.counts.canceledTrips + source.counts.canceledTrips },
    delays := target.delays ++ source.delays }

/-- The on-time percentage computed by `withPercent` in onTimePerformance.ts:
`null` when no trip was evaluated, otherwise `onTimeTrips / evaluatedTrips * 100`. -/
def onTimePct (c : Counts) : Option ℚ :=
  if c.evaluatedTrips = 0 then none
  else some ((c.onTimeTrips : ℚ) / (c.evaluatedTrips : ℚ) * 100)

/-- Delay statistics computed by `withStats` in onTimePerformance.ts
(each `none` embeds the `null` of the empty-list branch). -/
structure DelayStats where
  avgDelayMin : Option ℚ
  medianDelayMin : Option ℚ
  maxDelayMin : Option ℚ
  p90DelayMin : Option ℚ
  deriving Repr, DecidableEq

/-- The p90 index `Math.max(0, Math.ceil(n * 0.9) - 1)` of `withStats`.
For every list length that fits in a 53-bit float, `Math.ceil(n * 0.9)`
equals the exact `⌈9n/10⌉` (the relative rounding error of `n * 0.9` is
below `2⁻⁵⁵` while `9n/10` is never closer to a different integer than
`1/10`), so the index is embedded with exact rational arithmetic. -/
def p90Index (n : ℕ) : ℕ :=
  max 0 (⌈(n : ℚ) * (9 / 10)⌉₊ - 1)

/-- The delay-statistics part of `withStats(agg)` from onTimePerformance.ts.
The JavaScript `[...].sort((a, b) => a - b)` sorts ascending; it is embedded
by `List.insertionSort (· ≤ ·)`, which produces the same (unique) sorted
permutation. -/
def withStats (agg : AggregateWithDelays) : DelayStats :=
  if agg.delays = [] then
    { avgDelayMin := none, medianDelayMin := none, maxDelayMin := none, p90DelayMin := none }
  else
    let sorted := agg.delays.insertionSort (· ≤ ·)
    let n := sorted.length
    let mid := n / 2
    let median :=
      if n % 2 = 0 then (sorted.getD (mid - 1) 0 + sorted.getD mid 0) / 2
      else sorted.getD mid 0
    { avgDelayMin := some (agg.delays.sum / (n : ℚ)),
      medianDelayMin := some median,
      maxDelayMin := some (sorted.getD (n - 1) 0),
      p90DelayMin := some (sorted.getD (p90Index n) 0) }

/-- The invariant of claim C10: counters are consistent
(`onTimeTrips ≤ evaluatedTrips ≤ totalScheduled`, `canceledTrips ≤ totalScheduled`;
nonnegativity is inherent to `ℕ`). -/
def CountsInv (c : Counts) : Prop :=
  c.onTimeTrips ≤ c.evaluatedTrips ∧ c.evaluatedTrips ≤ c.totalScheduled ∧
    c.canceledTrips ≤ c.totalScheduled

instance (c : Counts) : Decidable (CountsInv c) := by
  unfold CountsInv; infer_instance

/-! ### Calendar dates and the service-day cutoff

`schedule.ts` and `cacheManager.ts` work with JavaScript `Date` values in
the agency's local time.  A calendar date is embedded as its local
year/month/day components (month 0-based as in JavaScript), an instant as
those components plus the local hour (`getDateFromTimestamp` and
`isCurrentServiceDay` read no finer component). -/

/-- A local calendar date as JavaScript exposes it: `getFullYear()`,
`getMonth()` (0-based), `getDate()` (1-based). -/
structure CalDate where
  year : ℤ
  month : ℤ
  day : ℤ
  deriving Repr, DecidableEq

/-- A local wall-clock instant restricted to the components the embedded
functions read: date components plus `getHours()`. -/
structure LocalTime where
  year : ℤ
  month : ℤ
  day : ℤ
  hour : ℤ
  deriving Repr, DecidableEq

/-- Number of days of 0-based month `m` of year `y`, with the Gregorian
leap rule (JavaScript `Date` component normalization follows it). -/
def daysInMonth (y m : ℤ) : ℤ :=
  if m = 1 then
    if y % 4 = 0 ∧ (y % 100 ≠ 0 ∨ y % 400 = 0) then 29 else 28
  else if m = 3 ∨ m = 5 ∨ m = 8 ∨ m = 10 then 30
  else 31

/-- The component normalization performed by the JavaScript constructor
`new Date(year, month, day)` for the arguments the embedded code produces:
a day argument of `0` rolls back to the last day of the previous month
(rolling the month and, from January, the year).  `getDateFromTimestamp`
only ever passes `day ≥ 0` with an in-range month, so one rollback step
suffices. -/
def jsMakeDate (y m d : ℤ) : CalDate :=
  if 1 ≤ d then ⟨y, m, d⟩
  else if 1 ≤ m then ⟨y, m - 1, daysInMonth y (m - 1) + d⟩
  else ⟨y - 1, 11, daysInMonth (y - 1) 11 + d⟩

/-- `getDateFromTimestamp(time)` from schedule.ts: the calendar date of the
instant, with the day decremented (before `new Date` normalization) when
the local hour is below 3. -/
def getDateFromTimestamp (t : LocalTime) : CalDate :=
  jsMakeDate t.year t.month (if t.hour < 3 then t.day - 1 else t.day)

/-- JavaScript `String(n).padStart(2, "0")`. -/
def pad2 (n : ℤ) : String :=
  let s := toString n
  if s.length < 2 then "0" ++ s else s

/-- `toDateString(date)` from schedule.ts: the `YYYY-MM-DD`-style key
(`year`, then the 1-based month and the day, each zero-padded to width 2). -/
def toDateString (d : CalDate) : String :=
  toString d.year ++ "-" ++ pad2 (d.month + 1) ++ "-" ++ pad2 d.day

/-- Calendar predecessor of a date, written from the calendar itself (not
from the code): used as the specification-side reading of "shifted back one
day" in §4.1 of the spec. -/
def prevCalendarDay (d : CalDate) : CalDate :=
  if 2 ≤ d.day then ⟨d.year, d.month, d.day - 1⟩
  else if 1 ≤ d.month then ⟨d.year, d.month - 1, daysInMonth d.year (d.month - 1)⟩
  else ⟨d.year - 1, 11, 31⟩

/-- Specification-side "today's service date" of an instant (§4.1): the
instant's calendar date, shifted back one calendar day when the local hour
is before 03:00. -/
def specServiceDate (t : LocalTime) : CalDate :=
  if t.hour < 3 then prevCalendarDay ⟨t.year, t.month, t.day⟩ else ⟨t.year, t.month, t.day⟩

/-- Valid local-time components: month in `0..11`, day within the month.
(Every instant an actual clock produces satisfies this.) -/
def ValidLocalTime (t : LocalTime) : Prop :=
  0 ≤ t.month ∧ t.month ≤ 11 ∧ 1 ≤ t.day ∧ t.day ≤ daysInMonth t.year t.month

instance (t : LocalTime) : Decidable (ValidLocalTime t) := by
  unfold ValidLocalTime; infer_instance

/-- `isCurrentServiceDay(date)` from cacheManager.ts, with the current
instant made an explicit parameter: the date-string comparison of the
argument against `getDateFromTimestamp(now)`, conjoined with
`now.getHours() > 4`. -/
def isCurrentServiceDay (d : CalDate) (now : LocalTime) : Bool :=
  (toDateString d == toDateString (getDateFromTimestamp now)) && (4 < now.hour)

/-! ### Schedule resolver: `getServiceIds` (schedule.ts)

For the calendar computation a date is embedded as its day number (an `ℤ`
counted from a Sunday epoch), so that the SQL `DATE` ordering is integer
ordering and JavaScript `date.getDay()` is `d % 7` with `0 = Sunday`.
Calendar rows store their validity bounds and exception dates as the same
day numbers.  The SQL weekday columns hold the integers `0`/`1` as in the
imported GTFS data. -/

/-- A row of the `calendar` table (the spec's `CalendarEntry`). -/
structure CalendarRow where
  service_id : String
  gtfs_version : ℤ
  monday : ℤ
  tuesday : ℤ
  wednesday : ℤ
  thursday : ℤ
  friday : ℤ
  saturday : ℤ
  sunday : ℤ
  start_date : ℤ
  end_date : ℤ
  deriving Repr, DecidableEq

/-- A row of the `calendar_dates` table (the spec's `CalendarException`). -/
structure CalendarDateRow where
  service_id : String
  gtfs_version : ℤ
  date : ℤ
  exception_type : ℤ
  deriving Repr, DecidableEq

/-- The one-hot weekday pattern built by `dateToServiceIdQuery(date)` in
schedule.ts, as the seven query values `(monday, …, sunday)`.
`date.getDay()` is `0` for Sunday. -/
def dateToServiceIdQuery (date : ℤ) : ℤ × ℤ × ℤ × ℤ × ℤ × ℤ × ℤ :=
  let day := date % 7
  (if day = 1 then 1 else 0, if day = 2 then 1 else 0, if day = 3 then 1 else 0,
   if day = 4 then 1 else 0, if day = 5 then 1 else 0, if day = 6 then 1 else 0,
   if day = 0 then 1 else 0)

/-- The `WHERE` clause of the first query of `getServiceIds`: all seven
weekday columns must equal the one-hot query values, the validity range
must cover the date, and the version must match. -/
def calendarRowMatches (version : ℤ) (date : ℤ) (e : CalendarRow) : Bool :=
  let q := dateToServiceIdQuery date
  e.monday == q.1 && e.tuesday == q.2.1 && e.wednesday == q.2.2.1 &&
    e.thursday == q.2.2.2.1 && e.friday == q.2.2.2.2.1 &&
    e.saturday == q.2.2.2.2.2.1 && e.sunday == q.2.2.2.2.2.2 &&
    e.start_date ≤ date && date ≤ e.end_date && e.gtfs_version == version

/-- JavaScript `Set.add`: append the element unless already present
(sets preserve insertion order). -/
def jsSetAdd (l : List String) (s : String) : List String :=
  if s ∈ l then l else l ++ [s]

/-- JavaScript `Set.delete`: remove the element. -/
def jsSetDelete (l : List String) (s : String) : List String :=
  l.filter (· ≠ s)

/-- `getServiceIds(gtfsVersion, date)` from schedule.ts over in-memory
tables: collect the service ids of the matching `calendar` rows into a
`Set`, then fold the `calendar_dates` rows of the exact date and version
over it — `exception_type === 1` adds the service id, any other value
deletes it — and return the set's elements. -/
def getServiceIds (calendar : List CalendarRow) (calendarDates : List CalendarDateRow)
    (version : ℤ) (date : ℤ) : List String :=
  let base := (calendar.filter (calendarRowMatches version date)).map (·.service_id)
  let exceptions := calendarDates.filter (fun x => x.date == date && x.gtfs_version == version)
  let initial := base.foldl jsSetAdd []
  exceptions.foldl
    (fun s x => if x.exception_type == 1 then jsSetAdd s x.service_id else jsSetDelete s x.service_id)
    initial

/-! ### Realtime ingestion: delay correlation (fetchRealtime.ts)

`getDelayInfo` searches the decoded trip-update feed for the entity whose
trip id equals the originally reported id, takes its first stop-time
update, looks the scheduled arrival up in the `stops` table and returns
the difference of both times in extended-range minutes.  The `stops`
lookup (`SELECT arrival_time … ORDER BY gtfs_version DESC LIMIT 1`) is
embedded as a function parameter; a predicted feed timestamp is embedded
as its raw epoch value together with its local wall-clock rendering (the
two facets JavaScript reads from it). -/

/-- Local wall-clock components of an instant (`getHours`/`getMinutes`/
`getSeconds` of a JavaScript `Date`). -/
structure Hms where
  hour : ℤ
  minute : ℤ
  second : ℤ
  deriving Repr, DecidableEq

/-- A predicted arrival from the trip-update feed: the raw `arrival.time`
epoch value (whose JavaScript truthiness is tested) and its local
wall-clock rendering. -/
structure PredictedArrival where
  epochSeconds : ℤ
  localClock : Hms
  deriving Repr, DecidableEq

/-- One element of `tripUpdate.stopTimeUpdate`. -/
structure StopTimeUpdate where
  stopId : Option String
  stopSequence : Option ℤ
  arrival : Option PredictedArrival
  deriving Repr, DecidableEq

/-- The trip-update payload of a feed entity; a feed entity is
`Option TripUpdatePayload` (`none` when `entity.tripUpdate` or its `trip`
is absent). -/
structure TripUpdatePayload where
  tripId : Option String
  stopTimeUpdates : Option (List StopTimeUpdate)
  deriving Repr, DecidableEq

/-- Whether a character is a decimal digit. -/
def isDigitChar (c : Char) : Bool :=
  ('0' ≤ c) && (c ≤ '9')

/-- Numeric value of a digit string. -/
def digitsVal (l : List Char) : ℕ :=
  l.foldl (fun acc c => acc * 10 + (c.toNat - Char.toNat '0')) 0

/-- Value of a character list consisting entirely of digits (`none`
otherwise). -/
def asDigits (l : List Char) : Option ℕ :=
  if l ≠ [] ∧ l.all isDigitChar then some (digitsVal l) else none

/-- JavaScript `Number(string)` restricted to the integer strings the code
feeds it: the empty string is 0, an optionally signed digit string is its
value, anything else is NaN (`none`). -/
def jsNumber (l : List Char) : Option ℤ :=
  match l with
  | [] => some 0
  | c :: rest =>
      if c = '-' then (asDigits rest).map (fun n => -(n : ℤ))
      else (asDigits (c :: rest)).map (fun n => (n : ℤ))

/-- JavaScript `parseInt(string)`: the value of the longest signed digit
prefix, NaN (`none`) when there is none. -/
def jsParseInt (l : List Char) : Option ℤ :=
  match l with
  | c :: rest =>
      if c = '-' then
        let ds := rest.takeWhile isDigitChar
        if ds = [] then none else some (-(digitsVal ds : ℤ))
      else
        let ds := (c :: rest).takeWhile isDigitChar
        if ds = [] then none else some ((digitsVal ds : ℤ))
  | [] => none

/-- JavaScript `string.split(sep)` for a single-character separator, over
the character list. -/
def splitOnChar (sep : Char) : List Char → List (List Char)
  | [] => [[]]
  | c :: cs =>
      match splitOnChar sep cs with
      | [] => [[]]
      | y :: ys => if c = sep then [] :: y :: ys else (c :: y) :: ys

/-- `timestampToTimeString(now, timestamp)` from fetchRealtime.ts: render
the predicted instant's local clock as `HH:MM:SS`, adding 24 to the hour
when the observation's service date (`now`) has a different day-of-month
than the real current date. -/
def timestampToTimeString (serviceDayOfMonth currentDayOfMonth : ℤ) (t : Hms) : String :=
  let hours := if serviceDayOfMonth ≠ currentDayOfMonth then t.hour + 24 else t.hour
  pad2 hours ++ ":" ++ pad2 t.minute ++ ":" ++ pad2 t.second

/-- `timeToMinutes(time)` from fetchRealtime.ts: split an (extended-range)
`HH:MM:SS` string on `:` and return `hours * 60 + minutes + seconds / 60`. -/
def timeToMinutes (time : String) : ℚ :=
  let parts := (splitOnChar ':' time.data).map (fun p => (jsParseInt p).getD 0)
  ((parts.getD 0 0 : ℤ) : ℚ) * 60 + ((parts.getD 1 0 : ℤ) : ℚ) + ((parts.getD 2 0 : ℤ) : ℚ) / 60

/-- The result object of `getDelayInfo`. -/
structure DelayInfo where
  delay : ℚ
  nextStopId : String
  deriving Repr, DecidableEq

/-- The matching condition of the `getDelayInfo` loop: the entity is a
trip update whose `trip.tripId` is truthy, whose `stopTimeUpdate` field is
present, and whose trip id equals the originally received id. -/
def delayEntityMatches (receivedTripId : String) (e : Option TripUpdatePayload) : Bool :=
  match e with
  | none => false
  | some p =>
      match p.tripId, p.stopTimeUpdates with
      | some tid, some _ => tid ≠ "" && tid == receivedTripId
      | _, _ => false

/-- `getDelayInfo(tripFeed, date, recievedTripId, tripId)` from
fetchRealtime.ts.  `stopsArrival tripId stopId stopSequence` embeds the
`stops` lookup of the scheduled `arrival_time` interval string (latest
schedule version first); the found entity's first stop-time update must
carry a truthy stop id, stop sequence and predicted arrival, else the
function returns `null` without examining further entities. -/
def getDelayInfo (tripFeed : List (Option TripUpdatePayload))
    (stopsArrival : String → String → ℤ → Option String)
    (serviceDayOfMonth currentDayOfMonth : ℤ)
    (receivedTripId tripId : String) : Option DelayInfo :=
  match tripFeed.find? (delayEntityMatches receivedTripId) with
  | none => none
  | some none => none
  | some (some p) =>
      let u := (p.stopTimeUpdates.getD []).head?
      let stopId := u.bind (·.stopId)
      let stopSequence := u.bind (·.stopSequence)
      let predicted := u.bind (·.arrival)
      match stopId, stopSequence, predicted with
      | some sid, some seq, some arr =>
          if sid = "" ∨ seq = 0 ∨ arr.epochSeconds = 0 then none
          else
            match stopsArrival tripId sid seq with
            | none => none
            | some scheduled =>
                some { delay := timeToMinutes
                         (timestampToTimeString serviceDayOfMonth currentDayOfMonth arr.localClock)
                         - timeToMinutes scheduled,
                       nextStopId := sid }
      | _, _, _ => none

/-- JavaScript `x || null` on a nullable number: `null`, `undefined` and
`0` all collapse to `null`. -/
def jsNumOrNull (x : Option ℚ) : Option ℚ :=
  match x with
  | none => none
  | some v => if v = 0 then none else some v

/-- JavaScript `x || null` on a nullable string: `null`, `undefined` and
the empty string all collapse to `null`. -/
def jsStrOrNull (x : Option String) : Option String :=
  match x with
  | none => none
  | some s => if s = "" then none else some s

/-- Lines 47–49 of fetchRealtime.ts: the correlation is attempted only
when both the received and the resolved trip id are truthy, and the
persisted columns are `delayInfo?.delay || null` and
`delayInfo?.nextStopId || null`. -/
def persistedDelayFields (tripFeed : List (Option TripUpdatePayload))
    (stopsArrival : String → String → ℤ → Option String)
    (serviceDayOfMonth currentDayOfMonth : ℤ)
    (receivedTripId tripId : Option String) : Option ℚ × Option String :=
  let info :=
    match receivedTripId, tripId with
    | some r, some t =>
        if r ≠ "" ∧ t ≠ "" then
          getDelayInfo tripFeed stopsArrival serviceDayOfMonth currentDayOfMonth r t
        else none
    | _, _ => none
  (jsNumOrNull (info.map (·.delay)), jsStrOrNull (info.map (·.nextStopId)))

/-- A concrete one-entity trip-update feed whose first stop-time update
predicts arrival at exactly the scheduled time (used to exercise the
zero-delay path). -/
def exampleTripFeed : List (Option TripUpdatePayload) :=
  [some ⟨some "T1", some [⟨some "S1", some 5, some ⟨1700000000, ⟨10, 0, 0⟩⟩⟩]⟩]

/-- A concrete `stops` lookup scheduling trip `T1` to arrive at stop `S1`
(sequence 5) at 10:00:00. -/
def exampleStopsArrival : String → String → ℤ → Option String :=
  fun tid sid seq => if tid = "T1" ∧ sid = "S1" ∧ seq = 5 then some "10:00:00" else none

/-! ### Cancellation streak (blockCancelCount.ts)

The endpoint's per-day SQL result rows are embedded as lists of `BlockTrip`
records: one per scheduled trip of the block for that day, with the fields
the comparison and cancellation checks read.  `canceled` embeds the
truthiness of the joined `schedule_relationship` column.  The backward walk
is embedded over an explicit list of prior days (most recent first); past
the end of that list the queries return no rows, which models dates before
any recorded schedule/cancellation data. -/

/-- One row of the block's trip set for a day. -/
structure BlockTrip where
  start_time : String
  route_id : String
  route_direction : ℤ
  canceled : Bool
  deriving Repr, DecidableEq

/-- The comparison at lines 82–84 of blockCancelCount.ts: the day's trip
set has the same length as the initial day's, and every row finds an
initial row with the same start time, route and direction. -/
def sigMatch (initial day : List BlockTrip) : Bool :=
  day.length == initial.length &&
    day.all (fun c => initial.any (fun i =>
      c.start_time == i.start_time && c.route_id == i.route_id &&
        c.route_direction == i.route_direction))

/-- Whether every trip of a day is canceled (`every((c) => c.schedule_relationship)`). -/
def allCanceled (day : List BlockTrip) : Bool :=
  day.all (·.canceled)

/-- The `while` loop of blockCancelCount.ts as a recursion over the list of
prior days: the loop runs while no non-canceled matching day was found and
at most 2 consecutive signature-mismatch days were seen; a mismatch day
increments `daysNotAvailable`, a fully-canceled matching day increments
`daysCanceled` and resets `daysNotAvailable`, and a matching day with a
running trip stops the walk with `allDays = false`.  When the day list is
exhausted, every further day yields an empty (hence mismatching, the
initial set being non-empty) trip set, so the loop exits within two more
iterations with the state unchanged and `allDays = true`. -/
def cancelWalk (initial : List BlockTrip) :
    List (List BlockTrip) → ℕ → ℕ → ℕ × Bool
  | [], daysCanceled, _ => (daysCanceled, true)
  | day :: rest, daysCanceled, daysNotAvailable =>
      if 2 < daysNotAvailable then (daysCanceled, true)
      else if ¬ sigMatch initial day then
        cancelWalk initial rest daysCanceled (daysNotAvailable + 1)
      else if allCanceled day then
        cancelWalk initial rest (daysCanceled + 1) 0
      else (daysCanceled, false)

/-- The blockCancelCount endpoint result: `{0, false}` when the queried
day's trip set is empty or not entirely canceled, otherwise the backward
walk started with `daysCanceled = 1`. -/
def blockCancelCount (initial : List BlockTrip) (history : List (List BlockTrip)) : ℕ × Bool :=
  if initial.isEmpty ∨ ¬ allCanceled initial then (0, false)
  else cancelWalk initial history 1 0

/-- Specification-side mismatch streak: `cancelStreakAt initial history d0 n`
is the number of consecutive signature-mismatch days immediately preceding
day index `n` (day indices count backward from the queried date, 0 being
the first prior day; `d0` is the streak value carried into index 0).
Defined from the data only, independently of the walk. -/
def cancelStreakAt (initial : List BlockTrip) (history : List (List BlockTrip))
    (d0 : ℕ) : ℕ → ℕ
  | 0 => d0
  | n + 1 =>
      if sigMatch initial (history.getD n []) then 0
      else cancelStreakAt initial history d0 n + 1

/-- Specification-side "running day": day `n` of the walk matches the
initial day's signature but is not entirely canceled. -/
def runningDay (initial : List BlockTrip) (history : List (List BlockTrip)) (n : ℕ) : Bool :=
  sigMatch initial (history.getD n []) && ! allCanceled (history.getD n [])

/-! ### Block/bus graph tracer (blockDetails.ts)

The worklist loop of the blockDetails endpoint (lines 70–96).  The two
storage queries are embedded as function parameters: `blocksForBus` is
`getBlocksForBus(busId, …)` for the requested service day, and
`blockBusIds` is the list of (possibly null) bus ids of the trips returned
by `getBlockData(blockId, …)`.  The collected `blocks` record is embedded
as the insertion-ordered list of its block-id keys; the loop additionally
records, for claim C8, the order in which bus ids are expanded (the branch
performing the `getBlocksForBus` lookup), which instruments the loop
without altering it.  `busesToProcess` is a stack: `push` appends,
`pop()` removes from the end.  As in the source, the buses pushed when a
new block is found are taken from the *initial* block's trip list. -/

/-- The environment of one tracer run: the day-scoped storage queries. -/
structure TraceEnv where
  blocksForBus : String → List String
  blockBusIds : String → List (Option String)

/-- The inner `for` over the blocks returned for a freshly processed bus:
each block id not yet collected is appended, and the initial block's
truthy, not-yet-processed bus ids are pushed onto the work stack. -/
def traceExpand (initialBusIds : List (Option String)) (processed : List String)
    (newBlockIds : List String) (blocks queue : List String) : List String × List String :=
  newBlockIds.foldl
    (fun st blkId =>
      if blkId ∈ st.1 then st
      else (st.1 ++ [blkId],
        st.2 ++ (initialBusIds.filterMap id).filter (fun v => v ≠ "" && v ∉ processed)))
    (blocks, queue)

/-- The `while (busesToProcess.length > 0)` loop of the blockDetails
endpoint.  Pops the top bus id; a falsy or already-processed id is
discarded, otherwise the bus is marked processed, its blocks are fetched
and `traceExpand` collects the new ones.  Returns the collected block ids
and the expansion log.  Termination is by the lexicographic measure
(unprocessed candidate bus ids, stack length): a discard shortens the
stack without changing the candidates, and an expansion removes the popped
bus from the candidates while pushing only initial-block buses. -/
def traceLoop (env : TraceEnv) (initialBusIds : List (Option String))
    (blocks processed queue log : List String) : List String × List String :=
  match hq : queue.getLast? with
  | none => (blocks, log)
  | some b =>
      let rest := queue.dropLast
      if hb : b ≠ "" ∧ b ∉ processed then
        let processed' := b :: processed
        let expanded := traceExpand initialBusIds processed' (env.blocksForBus b) blocks rest
        traceLoop env initialBusIds expanded.1 processed' expanded.2 (log ++ [b])
      else
        traceLoop env initialBusIds blocks processed rest log
  termination_by
    ((((initialBusIds.filterMap id) ++ queue).toFinset \ processed.toFinset).card, queue.length)
  decreasing_by
  · have hexp : ∀ (bids blocks q : List String) (x : String),
        x ∈ (traceExpand initialBusIds (b :: processed) bids blocks q).2 →
          x ∈ q ∨ x ∈ initialBusIds.filterMap id := by
      intro bids
      unfold traceExpand
      induction bids with
      | nil => intro blocks q x hx; exact Or.inl hx
      | cons hd tl ih =>
          intro blocks q x hx
          simp only [List.foldl_cons] at hx
          by_cases hmem : hd ∈ blocks
          · simp only [hmem, if_pos] at hx
            exact ih blocks q x hx
          · simp only [hmem, if_neg, not_false_iff] at hx
            rcases ih _ _ x hx with h | h
            · rcases List.mem_append.1 h with h2 | h2
              · exact Or.inl h2
              · exact Or.inr (List.mem_of_mem_filter h2)
            · exact Or.inr h
    have hqe : queue.dropLast ++ [b] = queue := List.dropLast_append_getLast? b hq
    apply Prod.Lex.left
    apply Finset.card_lt_card
    rw [Finset.ssubset_def]
    constructor
    · intro x hx
      rcases Finset.mem_sdiff.1 hx with ⟨hxu, hxp⟩
      have hxpr : x ∉ processed := by
        intro h; exact hxp (by simp [List.mem_toFinset.2 h])
      rcases List.mem_append.1 (List.mem_toFinset.1 hxu) with h | h
      · exact Finset.mem_sdiff.2 ⟨List.mem_toFinset.2 (List.mem_append.2 (Or.inl h)),
          fun hc => hxpr (List.mem_toFinset.1 hc)⟩
      · rcases hexp (env.blocksForBus b) blocks queue.dropLast x h with h2 | h2
        · have hxq : x ∈ queue := by
            rw [← hqe]; exact List.mem_append.2 (Or.inl h2)
          exact Finset.mem_sdiff.2 ⟨List.mem_toFinset.2 (List.mem_append.2 (Or.inr hxq)),
            fun hc => hxpr (List.mem_toFinset.1 hc)⟩
        · exact Finset.mem_sdiff.2 ⟨List.mem_toFinset.2 (List.mem_append.2 (Or.inl h2)),
            fun hc => hxpr (List.mem_toFinset.1 hc)⟩
    · intro hAB
      have hbA : b ∈ ((initialBusIds.filterMap id) ++ queue).toFinset \ processed.toFinset := by
        refine Finset.mem_sdiff.2 ⟨?_, ?_⟩
        · refine List.mem_toFinset.2 (List.mem_append.2 (Or.inr ?_))
          rw [← hqe]; exact List.mem_append.2 (Or.inr (by simp))
        · exact fun hc => hb.2 (List.mem_toFinset.1 hc)
      have hbB := hAB hbA
      rcases Finset.mem_sdiff.1 hbB with ⟨_, hnb⟩
      exact hnb (by simp)
  · have hqe : queue.dropLast ++ [b] = queue := List.dropLast_append_getLast? b hq
    have hlen : queue.dropLast.length < queue.length := by
      conv_rhs => rw [← hqe]
      simp
    have hle : ((((initialBusIds.filterMap id) ++ queue.dropLast).toFinset \ processed.toFinset).card)
        ≤ ((((initialBusIds.filterMap id) ++ queue).toFinset \ processed.toFinset).card) := by
      apply Finset.card_le_card
      apply Finset.sdiff_subset_sdiff _ le_rfl
      intro x hx
      rcases List.mem_append.1 (List.mem_toFinset.1 hx) with h | h
      · exact List.mem_toFinset.2 (List.mem_append.2 (Or.inl h))
      · refine List.mem_toFinset.2 (List.mem_append.2 (Or.inr ?_))
        rw [← hqe]; exact List.mem_append.2 (Or.inl h)
    rcases lt_or_eq_of_le hle with h | h
    · exact Prod.Lex.left _ _ h
    · rw [h]; exact Prod.Lex.right _ hlen

/-- The blockDetails endpoint's tracing phase for a known seed block id:
collect the initial block, seed the stack with its truthy bus ids, and run
the worklist loop with an empty processed set. -/
def traceBlocks (env : TraceEnv) (seedBlockId : String) : List String × List String :=
  let initialBusIds := env.blockBusIds seedBlockId
  let initialBuses := (initialBusIds.filterMap id).filter (· ≠ "")
  traceLoop env initialBusIds [seedBlockId] [] initialBuses []

/-- The synthetic cyclic bus/block relationship of the spec's §8 test:
bus A ↔ block B1 ↔ bus B ↔ block B2 ↔ bus A. -/
def cyclicTraceEnv : TraceEnv :=
  { blocksForBus := fun b =>
      if b = "A" then ["B1", "B2"] else if b = "B" then ["B1", "B2"] else [],
    blockBusIds := fun blk =>
      if blk = "B1" then [some "A", some "B"]
      else if blk = "B2" then [some "B", some "A"] else [] }

/-! ### On-time-performance endpoint (onTimePerformance.ts)

The endpoint's per-day computation, caching, merging and filter handling
(lines 376–623 of the cached variant of the endpoint).  The per-day SQL
query — schedule version, service ids and the trip join — is embedded as
`OTPEnv.db`, which yields `none` when no schedule version or no service
ids exist for the day (the `continue` branches) and otherwise the list of
`TripRow`s.  The daily cache table is embedded as `OTPEnv.cache`; the
endpoint records every `setCachedDailyStats` call it performs in an
explicit write list.  `OTPParams.routeFilter`/`frequencyFilter` hold the
already-normalized query values (`trim() || null` turns blank strings into
`none`). -/

/-- A row of the endpoint's per-day trip query (`TripRow`): the scheduled
start interval string, the averaged observed delay, the first observation's
local clock and the joined cancellation code. -/
structure TripRow where
  trip_id : String
  route_id : String
  route_direction : ℤ
  start_time : Option String
  avg_delay_min : Option ℚ
  first_seen : Option Hms
  schedule_relationship : Option ℤ
  deriving Repr, DecidableEq

/-- Query parameters of the endpoint after defaulting/normalization. -/
structure OTPParams where
  threshold : ℚ
  includeCanceled : Bool
  metric : String
  routeFilter : Option String
  frequencyFilter : Option String
  deriving Repr, DecidableEq

/-- The five fixed time-of-day buckets of onTimePerformance.ts
(label, startMin, endMin). -/
def timeBuckets : List (String × ℚ × ℚ) :=
  [("early", 0, 300), ("morning", 300, 540), ("midday", 540, 900),
   ("evening", 900, 1140), ("late", 1140, 1620)]

/-- `intervalToMinutes(interval)` from onTimePerformance.ts: split the
`HH:MM:SS` interval string on `:`; fewer than three parts or an unparsable
part yields `null`, otherwise `h*60 + m + s/60`. -/
def intervalToMinutes (interval : Option String) : Option ℚ :=
  match interval with
  | none => none
  | some s =>
      if s = "" then none
      else
        let parts := (splitOnChar ':' s.data).map jsNumber
        if parts.length < 3 ∨ parts.any (·.isNone) then none
        else some ((((parts.getD 0 none).getD 0 : ℤ) : ℚ) * 60
          + (((parts.getD 1 none).getD 0 : ℤ) : ℚ)
          + (((parts.getD 2 none).getD 0 : ℤ) : ℚ) / 60)

/-- `dateToTimeString(date, moreThan24HourTime)` from schedule.ts: render
the local clock as `HH:MM:SS`, adding 24 to hours below 3 in
extended-range mode. -/
def dateToTimeString (t : Hms) (moreThan24HourTime : Bool) : String :=
  let hours := if moreThan24HourTime && t.hour < 3 then t.hour + 24 else t.hour
  pad2 hours ++ ":" ++ pad2 t.minute ++ ":" ++ pad2 t.second

/-- JavaScript `parseInt(s.substring(a, b))` (used by `timeStringDiff`). -/
def parseIntAt (s : String) (a b : ℕ) : ℤ :=
  (jsParseInt ((s.data.drop a).take (b - a))).getD 0

/-- `timeStringDiff(t1, t2)` from schedule.ts: the difference of two
(extended-range) `HH:MM:SS` strings in seconds. -/
def timeStringDiff (t1 t2 : String) : ℤ :=
  (parseIntAt t1 0 2 - parseIntAt t2 0 2) * 60 * 60
    + (parseIntAt t1 3 5 - parseIntAt t2 3 5) * 60
    + (parseIntAt t1 6 8 - parseIntAt t2 6 8)

/-- `computeMetric(trip, metric)` from onTimePerformance.ts: the averaged
observed delay for `avgObserved`, otherwise the difference between the
first observation (rendered extended-range) and the scheduled start, in
minutes; `null` when either side is missing. -/
def computeMetric (t : TripRow) (metric : String) : Option ℚ :=
  if metric == "avgObserved" then t.avg_delay_min
  else
    match t.start_time, t.first_seen with
    | some st, some fs =>
        if st = "" then none
        else some ((timeStringDiff (dateToTimeString fs true) st : ℚ) / 60)
    | _, _ => none

/-- `bucketForTrip(trip)` from onTimePerformance.ts: the label of the first
bucket whose `[startMin, endMin)` range contains the scheduled start in
minutes; `null` when the start cannot be parsed or no bucket matches. -/
def bucketForTrip (t : TripRow) : Option String :=
  match intervalToMinutes t.start_time with
  | none => none
  | some m => (timeBuckets.find? (fun b => b.2.1 ≤ m && m < b.2.2)).map (·.1)

/-- Truthiness of the joined `schedule_relationship` column
(`!!trip.schedule_relationship`). -/
def isCanceledRow (t : TripRow) : Bool :=
  match t.schedule_relationship with
  | none => false
  | some v => v ≠ 0

/-- The per-route key `` `${trip.route_id}:${trip.route_direction}` ``. -/
def routeKey (t : TripRow) : String :=
  t.route_id ++ ":" ++ toString t.route_direction

/-- The on-time classification of lines 467–469: canceled trips are
`false` when canceled trips are included in the denominator and `null`
otherwise; non-canceled trips compare the absolute metric against the
threshold, `null` when the metric is missing. -/
def tripOnTime (threshold : ℚ) (includeCanceled isCanceled : Bool)
    (metricValue : Option ℚ) : Option Bool :=
  if isCanceled then (if includeCanceled then some false else none)
  else metricValue.map (fun v => |v| ≤ threshold)

/-- Update of a `Record<string, AggregateWithDelays>` at a key, creating
the entry (`??= createAggregate()`) when absent; JavaScript objects keep
insertion order. -/
def updAssocInsert (m : List (String × AggregateWithDelays)) (k : String)
    (f : AggregateWithDelays → AggregateWithDelays) : List (String × AggregateWithDelays) :=
  if m.any (fun p => p.1 == k) then m.map (fun p => if p.1 == k then (p.1, f p.2) else p)
  else m ++ [(k, f createAggregate)]

/-- Update of a `Record` at a key only when the key is present (the
`if (bucketLabel && buckets[bucketLabel])` guard). -/
def updAssocIfPresent (m : List (String × AggregateWithDelays)) (k : String)
    (f : AggregateWithDelays → AggregateWithDelays) : List (String × AggregateWithDelays) :=
  m.map (fun p => if p.1 == k then (p.1, f p.2) else p)

/-- The aggregate bundle built per day and cached (`CachedAggregates` /
the record fields of `emptyAggregateBundle()`). -/
structure AggBundle where
  overall : AggregateWithDelays
  routes : List (String × AggregateWithDelays)
  buckets : List (String × AggregateWithDelays)
  routeOverall : AggregateWithDelays
  routeBuckets : List (String × AggregateWithDelays)
  deriving Repr, DecidableEq

/-- The pre-initialized bucket map `Object.fromEntries(timeBuckets.map(…))`. -/
def initBuckets : List (String × AggregateWithDelays) :=
  timeBuckets.map (fun b => (b.1, createAggregate))

/-- `emptyAggregateBundle()` from onTimePerformance.ts. -/
def emptyAggregateBundle : AggBundle :=
  { overall := createAggregate, routes := [], buckets := initBuckets,
    routeOverall := createAggregate, routeBuckets := initBuckets }

/-- The body of the per-trip aggregation loop (lines 461–478): classify
the trip, then update the overall aggregate, the per-route aggregate
(created on first sight) and, when the trip has a bucket, that bucket. -/
def dayAggStep (p : OTPParams) (agg : AggBundle) (t : TripRow) : AggBundle :=
  let isCanceled := isCanceledRow t
  let metricValue := computeMetric t p.metric
  let onTime := tripOnTime p.threshold p.includeCanceled isCanceled metricValue
  { agg with
    overall := updateAggregate agg.overall onTime isCanceled metricValue,
    routes := updAssocInsert agg.routes (routeKey t)
      (fun a => updateAggregate a onTime isCanceled metricValue),
    buckets :=
      match bucketForTrip t with
      | none => agg.buckets
      | some l => updAssocIfPresent agg.buckets l
          (fun a => updateAggregate a onTime isCanceled metricValue) }

/-- The unfiltered per-day aggregation: fold the day's trips over an empty
bundle. -/
def computeDayBundle (p : OTPParams) (trips : List TripRow) : AggBundle :=
  trips.foldl (dayAggStep p) emptyAggregateBundle

/-- A daily-cache key (the primary key of `cache_on_time_daily`). -/
structure CacheKey where
  date : CalDate
  metric : String
  threshold : ℚ
  includeCanceled : Bool
  frequencyFilter : Option String
  routeId : Option String
  deriving Repr, DecidableEq

/-- The endpoint's environment: the current instant, the daily-cache
lookup and the per-day schedule/trip query. -/
structure OTPEnv where
  now : LocalTime
  cache : CacheKey → Option AggBundle
  db : CalDate → Option (List TripRow)

/-- The base cache key used by the endpoint for a day (always the
unfiltered key: `frequencyFilter` and `routeId` are `null`). -/
def baseKey (p : OTPParams) (d : CalDate) : CacheKey :=
  { date := d, metric := p.metric, threshold := p.threshold,
    includeCanceled := p.includeCanceled, frequencyFilter := none, routeId := none }

/-- The per-day loop of the endpoint (lines 409–484): for each requested
day, use the cached base aggregate when present; otherwise skip days
without schedule data or without trips, and for the rest compute the day
bundle, write it to the cache (recorded in the second component) and keep
it.  The write is unconditional — there is no current-service-day guard on
this path. -/
def otpDayLoop (env : OTPEnv) (p : OTPParams) (days : List CalDate) :
    List AggBundle × List (CacheKey × AggBundle) :=
  days.foldl
    (fun acc d =>
      match env.cache (baseKey p d) with
      | some a => (acc.1 ++ [a], acc.2)
      | none =>
          match env.db d with
          | none => acc
          | some trips =>
              if trips.isEmpty then acc
              else
                let a := computeDayBundle p trips
                (acc.1 ++ [a], acc.2 ++ [(baseKey p d, a)]))
    ([], [])

/-- `mergeAggregateMap(target, source)` from onTimePerformance.ts. -/
def mergeAggregateMap (target source : List (String × AggregateWithDelays)) :
    List (String × AggregateWithDelays) :=
  source.foldl (fun t kv => updAssocInsert t kv.1 (fun a => mergeAggregate a kv.2)) target

/-- The merge of all per-day aggregates (lines 492–497): overall, routes
and buckets are merged; `routeOverall`/`routeBuckets` stay those of the
empty bundle. -/
def mergeBundles (bundles : List AggBundle) : AggBundle :=
  bundles.foldl
    (fun m a =>
      { m with
        overall := mergeAggregate m.overall a.overall,
        routes := mergeAggregateMap m.routes a.routes,
        buckets := mergeAggregateMap m.buckets a.buckets })
    emptyAggregateBundle

/-- The fixed frequent-transit-network route set of onTimePerformance.ts. -/
def frequentRouteIds : List String :=
  ["5", "6", "7", "10", "11", "12", "14", "25", "40", "41", "44", "45",
   "57", "61", "62", "63", "68", "74", "75", "80", "85", "87", "88",
   "90", "98", "111"]

/-- The frequency-filter check of lines 508–510 / 559–561. -/
def matchesFrequency (freq : Option String) (routeId : String) : Bool :=
  let isFrequent := routeId ∈ frequentRouteIds
  freq.isNone || (freq == some "frequent" && isFrequent)
    || (freq == some "non-frequent" && !isFrequent)

/-- `key.split(':')[0]` — the route-id part of a per-route key. -/
def keyRoutePart (key : String) : String :=
  (key.splitOn ":").headD ""

/-- `hasFilters`: a route or frequency filter is active. -/
def hasFilters (p : OTPParams) : Bool :=
  p.routeFilter.isSome || p.frequencyFilter.isSome

/-- `containsCurrentDay` (line 405): some requested day is the current
service day. -/
def containsCurrentDay (now : LocalTime) (days : List CalDate) : Bool :=
  days.any (fun d => isCurrentServiceDay d now)

/-- The body of the filtered re-derivation loop over one day's trips
(lines 555–574): trips failing the frequency filter are skipped, the rest
update their time-of-day bucket with the same classification as the main
loop. -/
def rederiveStep (p : OTPParams) (bkts : List (String × AggregateWithDelays))
    (t : TripRow) : List (String × AggregateWithDelays) :=
  if ¬ matchesFrequency p.frequencyFilter t.route_id then bkts
  else
    let isCanceled := isCanceledRow t
    let metricValue := computeMetric t p.metric
    let onTime := tripOnTime p.threshold p.includeCanceled isCanceled metricValue
    match bucketForTrip t with
    | none => bkts
    | some l => updAssocIfPresent bkts l
        (fun a => updateAggregate a onTime isCanceled metricValue)

/-- One day of the filtered re-derivation (lines 522–575): skip days
without schedule data, apply the SQL route filter when one is set, and
fold the day's remaining trips into the buckets. -/
def rederiveDayStep (env : OTPEnv) (p : OTPParams)
    (bkts : List (String × AggregateWithDelays)) (d : CalDate) :
    List (String × AggregateWithDelays) :=
  match env.db d with
  | none => bkts
  | some trips =>
      let filtered :=
        match p.routeFilter with
        | none => trips
        | some rf => trips.filter (fun t => t.route_id == rf)
      filtered.foldl (rederiveStep p) bkts

/-- The filtered bucket re-derivation of lines 520–576: re-query every
requested day and aggregate the filter-matching trips into fresh buckets. -/
def rederivedBuckets (env : OTPEnv) (p : OTPParams) (days : List CalDate) :
    List (String × AggregateWithDelays) :=
  days.foldl (rederiveDayStep env p) initBuckets

/-- The merged unfiltered bucket aggregates of a request. -/
def otpMergedBuckets (env : OTPEnv) (p : OTPParams) (days : List CalDate) :
    List (String × AggregateWithDelays) :=
  (mergeBundles (otpDayLoop env p days).1).buckets

/-- The `merged.routeBuckets` assignment of lines 519–579: re-derived from
raw per-trip data only when filters are active and no requested day is the
current service day; otherwise a copy of the merged unfiltered buckets. -/
def otpRouteBuckets (env : OTPEnv) (p : OTPParams) (days : List CalDate) :
    List (String × AggregateWithDelays) :=
  if hasFilters p && ¬ containsCurrentDay env.now days then rederivedBuckets env p days
  else otpMergedBuckets env p days

/-- The cache writes performed by a request over the given day range. -/
def otpCacheWrites (env : OTPEnv) (p : OTPParams) (days : List CalDate) :
    List (CacheKey × AggBundle) :=
  (otpDayLoop env p days).2

/-- Every aggregate of a bundle satisfies the counter invariant. -/
def BundleInv (b : AggBundle) : Prop :=
  CountsInv b.overall.counts ∧ (∀ kv ∈ b.routes, CountsInv kv.2.counts) ∧
    (∀ kv ∈ b.buckets, CountsInv kv.2.counts) ∧ CountsInv b.routeOverall.counts ∧
    (∀ kv ∈ b.routeBuckets, CountsInv kv.2.counts)

/-- The `totalScheduled` counter of a labelled bucket of a bucket map
(0 when the label is absent). -/
def bucketTotal (m : List (String × AggregateWithDelays)) (label : String) : ℕ :=
  match m.find? (fun p => p.1 == label) with
  | none => 0
  | some p => p.2.counts.totalScheduled

/-- The day's trips as the re-derivation query returns them: empty for a
day without schedule data, otherwise the day's trips restricted by the
route filter. -/
def dayFilteredTrips (env : OTPEnv) (p : OTPParams) (d : CalDate) : List TripRow :=
  match env.db d with
  | none => []
  | some trips =>
      match p.routeFilter with
      | none => trips
      | some rf => trips.filter (fun t => t.route_id == rf)

/-- One day of the specification-side trip pool. -/
def poolDayStep (env : OTPEnv) (p : OTPParams) (acc : List TripRow) (d : CalDate) :
    List TripRow :=
  match env.db d with
  | none => acc
  | some trips =>
      acc ++ (match p.routeFilter with
        | none => trips
        | some rf => trips.filter (fun t => t.route_id == rf))

/-- Specification-side pool of raw trips examined by the filtered
re-derivation: the concatenation over the requested days of the day's
trips, restricted by the route filter the query applies. -/
def rederivePool (env : OTPEnv) (p : OTPParams) (days : List CalDate) : List TripRow :=
  days.foldl (poolDayStep env p) []

/-- A concrete trip of route 5 scheduled at 08:00:00 (no observations). -/
def exampleTripRoute5 : TripRow := ⟨"a", "5", 0, some "08:00:00", none, none, none⟩

/-- A concrete trip of route 7 scheduled at 08:00:00 (no observations). -/
def exampleTripRoute7 : TripRow := ⟨"b", "7", 0, some "08:00:00", none, none, none⟩

/-- A concrete endpoint environment: it is noon on 2024-05-15, the cache
is empty, and every day's query returns the two example trips. -/
def exampleOtpEnv : OTPEnv :=
  { now := ⟨2024, 4, 15, 12⟩,
    cache := fun _ => none,
    db := fun _ => some [exampleTripRoute5, exampleTripRoute7] }

/-- Concrete query parameters with an active route filter for route 5. -/
def exampleRouteParams : OTPParams := ⟨5, false, "avgObserved", some "5", none⟩

/-! ## Theorems -/

/-- The float expression `Math.ceil(n * 0.9)` of `withStats` agrees with
the integer arithmetic `(9n + 9) / 10` (exact ceiling division). -/
theorem ceil_nine_tenths (n : ℕ) : ⌈(n : ℚ) * (9 / 10)⌉₊ = (9 * n + 9) / 10 := by
  rcases Nat.eq_zero_or_pos n with h | h
  · subst h; norm_num
  · have hq0 : (9 * n + 9) / 10 ≠ 0 := by omega
    have hdm := Nat.div_add_mod (9 * n + 9) 10
    have hmlt : (9 * n + 9) % 10 < 10 := Nat.mod_lt _ (by norm_num)
    rw [Nat.ceil_eq_iff hq0]
    have hrw : (n : ℚ) * (9 / 10) = ((9 * n : ℕ) : ℚ) / 10 := by push_cast; ring
    constructor
    · rw [hrw, lt_div_iff₀ (by norm_num : (0:ℚ) < 10)]
      have hnat : ((9 * n + 9) / 10 - 1) * 10 < 9 * n := by omega
      exact_mod_cast hnat
    · rw [hrw, div_le_iff₀ (by norm_num : (0:ℚ) < 10)]
      have hnat : 9 * n ≤ ((9 * n + 9) / 10) * 10 := by omega
      exact_mod_cast hnat

/-- C5: merging two daily aggregates sums every counter component-wise and
concatenates the delay lists, and the on-time percentage derived from the
merged aggregate is the ratio of the summed counters (not an average of
per-day percentages). -/
theorem mergeAggregate_additive (a b : AggregateWithDelays) :
    (mergeAggregate a b).counts.totalScheduled
        = a.counts.totalScheduled + b.counts.totalScheduled ∧
    (mergeAggregate a b).counts.evaluatedTrips
        = a.counts.evaluatedTrips + b.counts.evaluatedTrips ∧
    (mergeAggregate a b).counts.onTimeTrips
        = a.counts.onTimeTrips + b.counts.onTimeTrips ∧
    (mergeAggregate a b).counts.canceledTrips
        = a.counts.canceledTrips + b.counts.canceledTrips ∧
    (mergeAggregate a b).delays = a.delays ++ b.delays ∧
    (a.counts.evaluatedTrips + b.counts.evaluatedTrips ≠ 0 →
      onTimePct (mergeAggregate a b).counts =
        some (((a.counts.onTimeTrips : ℚ) + (b.counts.onTimeTrips : ℚ))
          / ((a.counts.evaluatedTrips : ℚ) + (b.counts.evaluatedTrips : ℚ)) * 100)) := by
  refine ⟨rfl, rfl, rfl, rfl, rfl, fun h => ?_⟩
  unfold onTimePct mergeAggregate
  rw [if_neg h]
  push_cast
  ring_nf

/-- Witness for C5: 8/10 on-time merged with 1/5 on-time yields
9/15 = 60 %, not the 50 % average of the per-day percentages. -/
theorem mergeAggregate_additive_witness :
    ((10 : ℕ) + 5 ≠ 0) ∧
    onTimePct (mergeAggregate
      { counts := { totalScheduled := 10, evaluatedTrips := 10, onTimeTrips := 8, canceledTrips := 0 },
        delays := [] }
      { counts := { totalScheduled := 5, evaluatedTrips := 5, onTimeTrips := 1, canceledTrips := 0 },
        delays := [] }).counts = some 60 ∧
    ((80 : ℚ) + 20) / 2 = 50 := by
  refine ⟨by decide, ?_, by norm_num⟩
  have h := (mergeAggregate_additive
    { counts := { totalScheduled := 10, evaluatedTrips := 10, onTimeTrips := 8, canceledTrips := 0 },
      delays := [] }
    { counts := { totalScheduled := 5, evaluatedTrips := 5, onTimeTrips := 1, canceledTrips := 0 },
      delays := [] }).2.2.2.2.2 (by decide)
  rw [h]
  norm_num

/-- C6: for a non-empty delay list, the reported median is the middle
element of the sorted delays (midpoint of the two middle elements for even
length), and the reported p90 is the sorted list's element at index
`max(0, ceil(n·0.9) − 1) = (9n+9)/10 − 1`; `S` is characterized as the
sorted permutation of the list. -/
theorem withStats_median_p90 (c : Counts) (l S : List ℚ)
    (hne : l ≠ []) (hperm : S.Perm l) (hsort : S.Sorted (· ≤ ·)) :
    (withStats { counts := c, delays := l }).medianDelayMin =
      some (if l.length % 2 = 0 then
        (S.getD (l.length / 2 - 1) 0 + S.getD (l.length / 2) 0) / 2
      else S.getD (l.length / 2) 0) ∧
    (withStats { counts := c, delays := l }).p90DelayMin =
      some (S.getD ((9 * l.length + 9) / 10 - 1) 0) := by
  have hS : l.insertionSort (· ≤ ·) = S :=
    List.eq_of_perm_of_sorted ((List.perm_insertionSort _ l).trans hperm.symm)
      (List.sorted_insertionSort _ l) hsort
  have hlen : S.length = l.length := hperm.length_eq
  constructor
  · simp only [withStats, hne, if_neg (show ¬ l = [] from hne), hS, hlen, if_false]
  · simp only [withStats, hne, if_neg (show ¬ l = [] from hne), hS, hlen, p90Index,
      ceil_nine_tenths, Nat.zero_max, if_false]

/-- Witness for C6: for the delay list `[1, …, 10]` the median is 5.5 and
the p90 (index 8 of the sorted list) is 9. -/
theorem withStats_median_p90_witness :
    (withStats ⟨⟨0, 0, 0, 0⟩, [1, 2, 3, 4, 5, 6, 7, 8, 9, 10]⟩).medianDelayMin
        = some (5.5 : ℚ) ∧
    (withStats ⟨⟨0, 0, 0, 0⟩, [1, 2, 3, 4, 5, 6, 7, 8, 9, 10]⟩).p90DelayMin = some 9 := by
  have h := withStats_median_p90 ⟨0, 0, 0, 0⟩
    [1, 2, 3, 4, 5, 6, 7, 8, 9, 10] [1, 2, 3, 4, 5, 6, 7, 8, 9, 10]
    (by decide) (by decide) (by decide)
  exact ⟨h.1.trans (by norm_num), h.2.trans (by norm_num)⟩

/-- Preservation of a per-aggregate predicate by an insert-or-update on an
aggregate map. -/
theorem updAssocInsert_pred (P : AggregateWithDelays → Prop)
    (m : List (String × AggregateWithDelays)) (k : String)
    (f : AggregateWithDelays → AggregateWithDelays)
    (hm : ∀ kv ∈ m, P kv.2) (hf : ∀ a, P a → P (f a)) (hc : P createAggregate) :
    ∀ kv ∈ updAssocInsert m k f, P kv.2 := by
  intro kv hkv
  unfold updAssocInsert at hkv
  by_cases hany : m.any (fun p => p.1 == k)
  · rw [if_pos hany] at hkv
    rcases List.mem_map.1 hkv with ⟨q, hq, hqe⟩
    by_cases hqk : q.1 == k
    · rw [if_pos hqk] at hqe
      subst hqe; exact hf _ (hm q hq)
    · rw [if_neg hqk] at hqe
      subst hqe; exact hm q hq
  · rw [if_neg hany] at hkv
    rcases List.mem_append.1 hkv with h | h
    · exact hm kv h
    · rcases List.mem_singleton.1 h with rfl
      exact hf _ hc

/-- Preservation of a per-aggregate predicate by an update-if-present on
an aggregate map. -/
theorem updAssocIfPresent_pred (P : AggregateWithDelays → Prop)
    (m : List (String × AggregateWithDelays)) (k : String)
    (f : AggregateWithDelays → AggregateWithDelays)
    (hm : ∀ kv ∈ m, P kv.2) (hf : ∀ a, P a → P (f a)) :
    ∀ kv ∈ updAssocIfPresent m k f, P kv.2 := by
  intro kv hkv
  unfold updAssocIfPresent at hkv
  rcases List.mem_map.1 hkv with ⟨q, hq, hqe⟩
  by_cases hqk : q.1 == k
  · rw [if_pos hqk] at hqe
    subst hqe; exact hf _ (hm q hq)
  · rw [if_neg hqk] at hqe
    subst hqe; exact hm q hq

/-- `updateAggregate` preserves the counter invariant. -/
theorem updateAggregate_inv (a : AggregateWithDelays) (onTime : Option Bool)
    (isCanceled : Bool) (delay : Option ℚ) (h : CountsInv a.counts) :
    CountsInv (updateAggregate a onTime isCanceled delay).counts := by
  obtain ⟨h1, h2, h3⟩ := h
  unfold updateAggregate CountsInv
  rcases onTime with _ | b
  · cases isCanceled <;> simp <;> omega
  · cases b <;> cases isCanceled <;> simp <;> omega

/-- `mergeAggregate` preserves the counter invariant. -/
theorem mergeAggregate_inv (a b : AggregateWithDelays)
    (ha : CountsInv a.counts) (hb : CountsInv b.counts) :
    CountsInv (mergeAggregate a b).counts := by
  obtain ⟨ha1, ha2, ha3⟩ := ha
  obtain ⟨hb1, hb2, hb3⟩ := hb
  unfold mergeAggregate CountsInv
  refine ⟨?_, ?_, ?_⟩ <;> simp <;> omega

/-- The empty bundle satisfies the bundle invariant. -/
theorem emptyAggregateBundle_inv : BundleInv emptyAggregateBundle := by
  unfold BundleInv emptyAggregateBundle initBuckets timeBuckets
  decide

/-- One step of the per-trip aggregation loop preserves the bundle
invariant. -/
theorem dayAggStep_inv (p : OTPParams) (agg : AggBundle) (t : TripRow)
    (h : BundleInv agg) : BundleInv (dayAggStep p agg t) := by
  obtain ⟨h1, h2, h3, h4, h5⟩ := h
  refine ⟨updateAggregate_inv _ _ _ _ h1, ?_, ?_, h4, h5⟩
  · exact updAssocInsert_pred _ _ _ _ h2
      (fun a ha => updateAggregate_inv a _ _ _ ha) (by decide)
  · show ∀ kv ∈ (dayAggStep p agg t).buckets, CountsInv kv.2.counts
    unfold dayAggStep
    rcases hb : bucketForTrip t with _ | l
    · simpa [hb] using h3
    · simp only [hb]
      exact updAssocIfPresent_pred _ _ _ _ h3
        (fun a ha => updateAggregate_inv a _ _ _ ha)

/-- Every aggregate of the unfiltered per-day bundle satisfies the counter
invariant. -/
theorem computeDayBundle_inv (p : OTPParams) (trips : List TripRow) :
    BundleInv (computeDayBundle p trips) := by
  unfold computeDayBundle
  have hgen : ∀ (l : List TripRow) (agg : AggBundle), BundleInv agg →
      BundleInv (l.foldl (dayAggStep p) agg) := by
    intro l
    induction l with
    | nil => intro agg h; exact h
    | cons hd tl ih =>
        intro agg h
        exact ih _ (dayAggStep_inv p agg hd h)
  exact hgen trips emptyAggregateBundle emptyAggregateBundle_inv

/-- `mergeAggregateMap` preserves the counter invariant. -/
theorem mergeAggregateMap_inv (target source : List (String × AggregateWithDelays))
    (ht : ∀ kv ∈ target, CountsInv kv.2.counts)
    (hs : ∀ kv ∈ source, CountsInv kv.2.counts) :
    ∀ kv ∈ mergeAggregateMap target source, CountsInv kv.2.counts := by
  unfold mergeAggregateMap
  induction source generalizing target with
  | nil => intro kv hkv; exact ht kv hkv
  | cons hd tl ih =>
      intro kv hkv
      simp only [List.foldl_cons] at hkv
      refine ih _ ?_ (fun q hq => hs q (List.mem_cons_of_mem hd hq)) kv hkv
      exact updAssocInsert_pred _ _ _ _ ht
        (fun a ha => mergeAggregate_inv a hd.2 ha (hs hd (List.mem_cons_self hd tl)))
        (by decide)

/-- Merging any list of invariant-satisfying bundles yields an
invariant-satisfying bundle. -/
theorem mergeBundles_inv (bundles : List AggBundle)
    (h : ∀ b ∈ bundles, BundleInv b) : BundleInv (mergeBundles bundles) := by
  unfold mergeBundles
  have hgen : ∀ (l : List AggBundle) (m : AggBundle), (∀ b ∈ l, BundleInv b) →
      BundleInv m →
      BundleInv (l.foldl (fun m a =>
        { m with
          overall := mergeAggregate m.overall a.overall,
          routes := mergeAggregateMap m.routes a.routes,
          buckets := mergeAggregateMap m.buckets a.buckets }) m) := by
    intro l
    induction l with
    | nil => intro m _ hm; exact hm
    | cons hd tl ih =>
        intro m hl hm
        obtain ⟨hm1, hm2, hm3, hm4, hm5⟩ := hm
        obtain ⟨hh1, hh2, hh3, _, _⟩ := hl hd (List.mem_cons_self hd tl)
        refine ih _ (fun b hb => hl b (List.mem_cons_of_mem hd hb)) ?_
        exact ⟨mergeAggregate_inv _ _ hm1 hh1, mergeAggregateMap_inv _ _ hm2 hh2,
          mergeAggregateMap_inv _ _ hm3 hh3, hm4, hm5⟩
  exact hgen bundles emptyAggregateBundle h emptyAggregateBundle_inv

/-- C10: `updateAggregate` and `mergeAggregate` preserve the counter
invariant `onTimeTrips ≤ evaluatedTrips ≤ totalScheduled` and
`canceledTrips ≤ totalScheduled`, and every aggregate the engine produces
— the per-day bundles (overall, per-route, per-bucket) and any merge of
such bundles — satisfies it. -/
theorem aggregate_counts_invariant :
    (∀ (a : AggregateWithDelays) (onTime : Option Bool) (isCanceled : Bool) (delay : Option ℚ),
      CountsInv a.counts → CountsInv (updateAggregate a onTime isCanceled delay).counts) ∧
    (∀ a b : AggregateWithDelays, CountsInv a.counts → CountsInv b.counts →
      CountsInv (mergeAggregate a b).counts) ∧
    (∀ (p : OTPParams) (trips : List TripRow), BundleInv (computeDayBundle p trips)) ∧
    (∀ bundles : List AggBundle, (∀ b ∈ bundles, BundleInv b) →
      BundleInv (mergeBundles bundles)) :=
  ⟨updateAggregate_inv, mergeAggregate_inv, computeDayBundle_inv, mergeBundles_inv⟩

/-- Witness for C10 at concrete inputs. -/
theorem aggregate_counts_invariant_witness :
    CountsInv (updateAggregate createAggregate (some true) false (some (3 / 2))).counts ∧
    BundleInv (mergeBundles
      [computeDayBundle ⟨5, false, "avgObserved", none, none⟩
        [⟨"t1", "5", 0, some "08:00:00", some 2, none, none⟩]]) := by
  constructor
  · exact aggregate_counts_invariant.1 createAggregate (some true) false (some (3 / 2))
      (by decide)
  · refine aggregate_counts_invariant.2.2.2 _ ?_
    intro b hb
    rcases List.mem_singleton.1 hb with rfl
    exact aggregate_counts_invariant.2.2.1 _ _

/-- For valid clock components, `getDateFromTimestamp` computes exactly
the §4.1 service date: the calendar date, shifted back one calendar day
when the local hour is below 3. -/
theorem getDateFromTimestamp_eq_spec (now : LocalTime) (hv : ValidLocalTime now) :
    getDateFromTimestamp now = specServiceDate now := by
  obtain ⟨hm0, hm11, hd1, _⟩ := hv
  unfold getDateFromTimestamp specServiceDate jsMakeDate prevCalendarDay
  by_cases hh : now.hour < 3
  · simp only [if_pos hh]
    by_cases hd2 : 2 ≤ now.day
    · rw [if_pos (by omega : (1:ℤ) ≤ now.day - 1)]
      simp only [if_pos hd2]
    · have hde : now.day = 1 := by omega
      rw [if_neg (by omega : ¬ (1:ℤ) ≤ now.day - 1)]
      simp only [if_neg (by omega : ¬ (2:ℤ) ≤ now.day)]
      by_cases hm1 : (1:ℤ) ≤ now.month
      · simp only [if_pos hm1]
        rw [hde]
        norm_num
      · simp only [if_neg hm1]
        rw [hde]
        norm_num [daysInMonth]
  · simp only [if_neg hh]
    rw [if_pos hd1]

/-- C2 counterexample: at 03:00 local on 2024-05-15, the date 2024-05-15
is today's service date by the §4.1 cutoff (the hour is not below 3), yet
`isCurrentServiceDay` returns `false` — its additional `getHours() > 4`
condition fails, refuting "no other condition on the current time affects
the result". -/
theorem isCurrentServiceDay_counterexample :
    isCurrentServiceDay ⟨2024, 4, 15⟩ ⟨2024, 4, 15, 3⟩ = false ∧
    specServiceDate ⟨2024, 4, 15, 3⟩ = ⟨2024, 4, 15⟩ ∧
    toDateString ⟨2024, 4, 15⟩ = toDateString (getDateFromTimestamp ⟨2024, 4, 15, 3⟩) := by
  refine ⟨by decide, by decide, by decide⟩

/-- C2 (amended): for a valid current instant, `isCurrentServiceDay(d)`
returns true iff `d` has the same date string as today's service date
(the current instant's calendar date, shifted back one day when the local
hour is before 03:00) AND, additionally, the current local hour is greater
than 4; before 05:00 the function is always false. -/
theorem isCurrentServiceDay_iff (d : CalDate) (now : LocalTime) (hv : ValidLocalTime now) :
    isCurrentServiceDay d now = true ↔
      (toDateString d = toDateString (specServiceDate now) ∧ 4 < now.hour) := by
  unfold isCurrentServiceDay
  rw [getDateFromTimestamp_eq_spec now hv]
  simp [Bool.and_eq_true, beq_iff_eq, decide_eq_true_eq]

/-- Witness for C2 (amended) at noon on 2024-05-15. -/
theorem isCurrentServiceDay_iff_witness :
    ValidLocalTime ⟨2024, 4, 15, 12⟩ ∧
    isCurrentServiceDay ⟨2024, 4, 15⟩ ⟨2024, 4, 15, 12⟩ = true := by
  refine ⟨by decide, ?_⟩
  exact (isCurrentServiceDay_iff ⟨2024, 4, 15⟩ ⟨2024, 4, 15, 12⟩ (by decide)).2
    ⟨by decide, by decide⟩

/-- C4: when the trip-update correlation fully succeeds with a predicted
arrival equal to the scheduled arrival (delay exactly 0), the persisted
delay is `null` while the next stop is persisted — the `delayInfo?.delay
|| null` at line 48 of fetchRealtime.ts collapses a correlated zero delay
to `null`, contradicting "the stored delay equals the difference including
when that difference is zero" and breaking the both-fields-null coupling.
A failed correlation does persist `(null, null)` as claimed. -/
theorem zero_delay_persisted_null :
    getDelayInfo exampleTripFeed exampleStopsArrival 15 15 "T1" "T1" = some ⟨0, "S1"⟩ ∧
    persistedDelayFields exampleTripFeed exampleStopsArrival 15 15 (some "T1") (some "T1")
      = (none, some "S1") ∧
    persistedDelayFields [] exampleStopsArrival 15 15 (some "T1") (some "T1")
      = (none, none) := by
  have hparts : (splitOnChar ':' ("10:00:00".data)).map (fun p => (jsParseInt p).getD 0)
      = [10, 0, 0] := rfl
  have htm : timeToMinutes "10:00:00" = 600 := by
    unfold timeToMinutes
    rw [hparts]
    norm_num
  have h1 : getDelayInfo exampleTripFeed exampleStopsArrival 15 15 "T1" "T1"
      = some ⟨timeToMinutes (timestampToTimeString 15 15 ⟨10, 0, 0⟩)
          - timeToMinutes "10:00:00", "S1"⟩ := rfl
  have hts : timestampToTimeString 15 15 ⟨10, 0, 0⟩ = "10:00:00" := rfl
  have h0 : getDelayInfo exampleTripFeed exampleStopsArrival 15 15 "T1" "T1"
      = some ⟨0, "S1"⟩ := by
    rw [h1, hts, htm]
    norm_num
  have h2 : persistedDelayFields exampleTripFeed exampleStopsArrival 15 15
      (some "T1") (some "T1")
      = (jsNumOrNull ((getDelayInfo exampleTripFeed exampleStopsArrival 15 15
            "T1" "T1").map (·.delay)),
         jsStrOrNull ((getDelayInfo exampleTripFeed exampleStopsArrival 15 15
            "T1" "T1").map (·.nextStopId))) := rfl
  refine ⟨h0, ?_, by rfl⟩
  rw [h2, h0]
  simp [jsNumOrNull, jsStrOrNull]

/-- C1: the per-day loop of the on-time-performance endpoint persists a
cache row for the current in-progress service day.  At noon on 2024-05-15
(for which `isCurrentServiceDay` holds of 2024-05-15), a request for that
day with an empty cache computes the day fresh and unconditionally calls
`setCachedDailyStats` for it — no current-service-day guard exists on the
write path (lines 480–483 of onTimePerformance.ts, `setCachedDailyStats`
in cacheManager.ts). -/
theorem current_day_cache_write :
    isCurrentServiceDay ⟨2024, 4, 15⟩ ⟨2024, 4, 15, 12⟩ = true ∧
    (otpCacheWrites
      { now := ⟨2024, 4, 15, 12⟩,
        cache := fun _ => none,
        db := fun _ => some [⟨"t1", "5", 0, some "08:00:00", some 2, none, none⟩] }
      ⟨5, false, "avgObserved", none, none⟩
      [⟨2024, 4, 15⟩]).map (fun w => w.1.date) = [⟨2024, 4, 15⟩] := by
  refine ⟨by decide, by decide⟩

/-- Membership in a JavaScript-set insertion. -/
theorem jsSetAdd_mem (l : List String) (s x : String) :
    x ∈ jsSetAdd l s ↔ x ∈ l ∨ x = s := by
  unfold jsSetAdd
  by_cases h : s ∈ l
  · rw [if_pos h]
    constructor
    · exact Or.inl
    · rintro (hx | rfl)
      · exact hx
      · exact h
  · rw [if_neg h]
    simp

/-- A JavaScript-set insertion preserves distinctness. -/
theorem jsSetAdd_nodup (l : List String) (s : String) (h : l.Nodup) :
    (jsSetAdd l s).Nodup := by
  unfold jsSetAdd
  by_cases hs : s ∈ l
  · rwa [if_pos hs]
  · rw [if_neg hs]
    rw [List.nodup_append]
    exact ⟨h, List.nodup_singleton s, by simpa [List.disjoint_singleton] using hs⟩

/-- A JavaScript-set deletion preserves distinctness. -/
theorem jsSetDelete_nodup (l : List String) (s : String) (h : l.Nodup) :
    (jsSetDelete l s).Nodup :=
  h.filter _

/-- Membership in a JavaScript-set deletion. -/
theorem jsSetDelete_mem (l : List String) (s x : String) :
    x ∈ jsSetDelete l s ↔ x ∈ l ∧ x ≠ s := by
  unfold jsSetDelete
  simp

/-- Folding insertions of a list into a JavaScript set: distinctness and
membership. -/
theorem foldl_jsSetAdd_spec (base : List String) :
    ∀ acc : List String, acc.Nodup →
      (base.foldl jsSetAdd acc).Nodup ∧
        ∀ x, x ∈ base.foldl jsSetAdd acc ↔ x ∈ acc ∨ x ∈ base := by
  induction base with
  | nil => intro acc h; exact ⟨h, fun x => by simp⟩
  | cons hd tl ih =>
      intro acc h
      obtain ⟨hn, hm⟩ := ih (jsSetAdd acc hd) (jsSetAdd_nodup acc hd h)
      refine ⟨hn, fun x => ?_⟩
      rw [List.foldl_cons, hm x, jsSetAdd_mem]
      constructor
      · rintro ((hx | rfl) | hx)
        · exact Or.inl hx
        · exact Or.inr (List.mem_cons_self _ _)
        · exact Or.inr (List.mem_cons_of_mem hd hx)
      · rintro (hx | hx)
        · exact Or.inl (Or.inl hx)
        · rcases List.mem_cons.1 hx with rfl | hx
          · exact Or.inl (Or.inr rfl)
          · exact Or.inr hx

/-- The exception fold of `getServiceIds`, characterized over exception
rows with pairwise-distinct service ids: a service id is in the result iff
some exception with type 1 names it, or it was in the accumulator and no
exception of another type names it. -/
theorem foldl_exceptions_spec (exs : List CalendarDateRow)
    (hex : exs.Pairwise (fun a b => a.service_id ≠ b.service_id)) :
    ∀ acc : List String,
      (∀ x, x ∈ exs.foldl
          (fun s x => if x.exception_type == 1 then jsSetAdd s x.service_id
            else jsSetDelete s x.service_id) acc ↔
        ((∃ e ∈ exs, e.service_id = x ∧ e.exception_type = 1) ∨
          (x ∈ acc ∧ ¬∃ e ∈ exs, e.service_id = x ∧ e.exception_type ≠ 1))) ∧
      (acc.Nodup → (exs.foldl
          (fun s x => if x.exception_type == 1 then jsSetAdd s x.service_id
            else jsSetDelete s x.service_id) acc).Nodup) := by
  induction exs with
  | nil =>
      intro acc
      refine ⟨fun x => ?_, fun h => h⟩
      simp
  | cons e exs ih =>
      intro acc
      have hpair := (List.pairwise_cons.1 hex).1
      have htail := (List.pairwise_cons.1 hex).2
      obtain ⟨ihm, ihn⟩ := ih htail
        (if e.exception_type == 1 then jsSetAdd acc e.service_id
          else jsSetDelete acc e.service_id)
      constructor
      · intro x
        rw [List.foldl_cons, ihm x]
        by_cases hxe : x = e.service_id
        · subst hxe
          by_cases ht : e.exception_type = 1
          · rw [if_pos (by simpa using ht), jsSetAdd_mem]
            constructor
            · intro _
              exact Or.inl ⟨e, List.mem_cons_self e exs, rfl, ht⟩
            · intro _
              refine Or.inr ⟨Or.inr rfl, ?_⟩
              rintro ⟨e2, he2, hid, _⟩
              exact hpair e2 he2 hid.symm
          · rw [if_neg (by simpa using ht), jsSetDelete_mem]
            constructor
            · rintro (h1 | ⟨⟨_, hne⟩, _⟩)
              · exact absurd h1 (by
                  rintro ⟨e2, he2, hid, _⟩
                  exact hpair e2 he2 hid.symm)
              · exact absurd rfl hne
            · rintro (⟨e2, he2, hid, ht2⟩ | ⟨_, hno⟩)
              · rcases List.mem_cons.1 he2 with heq | he2
                · exact absurd (heq ▸ ht2) ht
                · exact absurd hid.symm (hpair e2 he2)
              · exact absurd ⟨e, List.mem_cons_self e exs, rfl, ht⟩ hno
        · have hacc : (x ∈ (if e.exception_type == 1 then jsSetAdd acc e.service_id
              else jsSetDelete acc e.service_id)) ↔ x ∈ acc := by
            by_cases ht : e.exception_type = 1
            · rw [if_pos (by simpa using ht), jsSetAdd_mem]
              exact ⟨fun h => h.resolve_right hxe, Or.inl⟩
            · rw [if_neg (by simpa using ht), jsSetDelete_mem]
              exact ⟨fun h => h.1, fun h => ⟨h, hxe⟩⟩
          rw [hacc]
          constructor
          · rintro (⟨e2, he2, hid, ht2⟩ | ⟨hc, hno⟩)
            · exact Or.inl ⟨e2, List.mem_cons_of_mem e he2, hid, ht2⟩
            · refine Or.inr ⟨hc, ?_⟩
              rintro ⟨e2, he2, hid, ht2⟩
              rcases List.mem_cons.1 he2 with heq | he2
              · exact hxe (heq ▸ hid).symm
              · exact hno ⟨e2, he2, hid, ht2⟩
          · rintro (⟨e2, he2, hid, ht2⟩ | ⟨hc, hno⟩)
            · rcases List.mem_cons.1 he2 with heq | he2
              · exact absurd (heq ▸ hid).symm hxe
              · exact Or.inl ⟨e2, he2, hid, ht2⟩
            · refine Or.inr ⟨hc, ?_⟩
              rintro ⟨e2, he2, hid, ht2⟩
              exact hno ⟨e2, List.mem_cons_of_mem e he2, hid, ht2⟩
      · intro hacc
        rw [List.foldl_cons]
        refine ihn ?_
        by_cases ht : e.exception_type == 1
        · rw [if_pos ht]; exact jsSetAdd_nodup _ _ hacc
        · rw [if_neg ht]; exact jsSetDelete_nodup _ _ hacc

/-- C7 counterexample: on a Monday (day number 8; day 0 is a Sunday), a
calendar row for service "A" with both the Monday and the Tuesday flag
set, version matching and validity range covering the date, is NOT
returned by `getServiceIds` — the query demands all seven weekday columns
equal the one-hot pattern of the date's weekday, so a service scheduled on
more than one weekday never matches any date. -/
theorem getServiceIds_counterexample :
    (8 : ℤ) % 7 = 1 ∧
    getServiceIds [⟨"A", 1, 1, 1, 0, 0, 0, 0, 0, 0, 100⟩] [] 1 8 = [] := by
  exact ⟨by decide, by rfl⟩

/-- C7 (amended): for every version and date, `getServiceIds` returns a
duplicate-free collection containing exactly those service ids `s` such
that either a type-1 calendar exception of that version and exact date
names `s`, or some calendar row of that version names `s`, its seven
weekday flags equal the one-hot vector of the date's weekday (not merely
the date's weekday flag being set), its validity range covers the date,
and no exception of another type names `s`; exception rows are assumed
unique per service id for the date and version (their table key). -/
theorem getServiceIds_spec (calendar : List CalendarRow)
    (calendarDates : List CalendarDateRow) (version date : ℤ)
    (hexc : (calendarDates.filter
        (fun x => x.date == date && x.gtfs_version == version)).Pairwise
      (fun a b => a.service_id ≠ b.service_id)) :
    (getServiceIds calendar calendarDates version date).Nodup ∧
    ∀ s, s ∈ getServiceIds calendar calendarDates version date ↔
      ((∃ e ∈ calendarDates, e.date = date ∧ e.gtfs_version = version ∧
          e.service_id = s ∧ e.exception_type = 1) ∨
        ((∃ r ∈ calendar, calendarRowMatches version date r ∧ r.service_id = s) ∧
          ¬∃ e ∈ calendarDates, e.date = date ∧ e.gtfs_version = version ∧
            e.service_id = s ∧ e.exception_type ≠ 1)) := by
  unfold getServiceIds
  obtain ⟨hbm, hbn⟩ := foldl_exceptions_spec _ hexc
    (((calendar.filter (calendarRowMatches version date)).map (fun r => r.service_id)).foldl
      jsSetAdd [])
  obtain ⟨hbasen, hbasem⟩ := foldl_jsSetAdd_spec
    ((calendar.filter (calendarRowMatches version date)).map (fun r => r.service_id)) []
    List.nodup_nil
  have hfiltmem : ∀ (e : CalendarDateRow),
      (e ∈ calendarDates.filter (fun x => x.date == date && x.gtfs_version == version)) ↔
        (e ∈ calendarDates ∧ e.date = date ∧ e.gtfs_version = version) := by
    intro e
    rw [List.mem_filter]
    simp
  refine ⟨hbn hbasen, fun s => ?_⟩
  rw [hbm s]
  constructor
  · rintro (⟨e, he, hid, ht⟩ | ⟨hbase, hno⟩)
    · obtain ⟨he1, he2, he3⟩ := (hfiltmem e).1 he
      exact Or.inl ⟨e, he1, he2, he3, hid, ht⟩
    · refine Or.inr ⟨?_, ?_⟩
      · rcases (hbasem s).1 hbase with hc | hc
        · exact absurd hc (List.not_mem_nil s)
        · rcases List.mem_map.1 hc with ⟨r, hr, hre⟩
          exact ⟨r, (List.mem_filter.1 hr).1, (List.mem_filter.1 hr).2, hre⟩
      · rintro ⟨e, he1, he2, he3, hid, ht⟩
        exact hno ⟨e, (hfiltmem e).2 ⟨he1, he2, he3⟩, hid, ht⟩
  · rintro (⟨e, he1, he2, he3, hid, ht⟩ | ⟨⟨r, hr, hrm, hre⟩, hno⟩)
    · exact Or.inl ⟨e, (hfiltmem e).2 ⟨he1, he2, he3⟩, hid, ht⟩
    · refine Or.inr ⟨?_, ?_⟩
      · refine (hbasem s).2 (Or.inr ?_)
        exact List.mem_map.2 ⟨r, List.mem_filter.2 ⟨hr, hrm⟩, hre⟩
      · rintro ⟨e, he, hid, ht⟩
        obtain ⟨he1, he2, he3⟩ := (hfiltmem e).1 he
        exact hno ⟨e, he1, he2, he3, hid, ht⟩

/-- Witness for C7 (amended), the §8 calendar-exception test: on Monday
day 8, service "B" runs by weekday rule but is removed by a type-2
exception, while "A" is off by weekday rule but added by a type-1
exception. -/
theorem getServiceIds_spec_witness :
    "A" ∈ getServiceIds [⟨"B", 1, 1, 0, 0, 0, 0, 0, 0, 0, 100⟩]
      [⟨"A", 1, 8, 1⟩, ⟨"B", 1, 8, 2⟩] 1 8 ∧
    "B" ∉ getServiceIds [⟨"B", 1, 1, 0, 0, 0, 0, 0, 0, 0, 100⟩]
      [⟨"A", 1, 8, 1⟩, ⟨"B", 1, 8, 2⟩] 1 8 := by
  have h := getServiceIds_spec [⟨"B", 1, 1, 0, 0, 0, 0, 0, 0, 0, 100⟩]
    [⟨"A", 1, 8, 1⟩, ⟨"B", 1, 8, 2⟩] 1 8 (by decide)
  exact ⟨(h.2 "A").2 (by decide), fun hmem => absurd ((h.2 "B").1 hmem) (by decide)⟩

/-- Shifting the mismatch streak across the first walked day. -/
theorem cancelStreakAt_cons (initial day : List BlockTrip)
    (rest : List (List BlockTrip)) (d0 : ℕ) :
    ∀ m, cancelStreakAt initial (day :: rest) d0 (m + 1)
      = cancelStreakAt initial rest (if sigMatch initial day then 0 else d0 + 1) m := by
  intro m
  induction m with
  | zero => simp [cancelStreakAt]
  | succ k ih =>
      have hl : cancelStreakAt initial (day :: rest) d0 (k + 1 + 1)
          = (if sigMatch initial ((day :: rest).getD (k + 1) []) = true then 0
            else cancelStreakAt initial (day :: rest) d0 (k + 1) + 1) := rfl
      have hr : cancelStreakAt initial rest
            (if sigMatch initial day = true then 0 else d0 + 1) (k + 1)
          = (if sigMatch initial (rest.getD k []) = true then 0
            else cancelStreakAt initial rest
              (if sigMatch initial day = true then 0 else d0 + 1) k + 1) := rfl
      rw [hl, hr, ih, List.getD_cons_succ]

/-- Shifting the running-day predicate across the first walked day. -/
theorem runningDay_cons (initial day : List BlockTrip) (rest : List (List BlockTrip)) (m : ℕ) :
    runningDay initial (day :: rest) (m + 1) = runningDay initial rest m := by
  simp [runningDay]

/-- The backward walk reports `allDays = false` exactly when some prior
day matches the initial signature without being entirely canceled, no
earlier day does, and the walk reaches it — i.e. the mismatch streak never
exceeds 2 up to that day. -/
theorem cancelWalk_false_iff (initial : List BlockTrip) :
    ∀ (days : List (List BlockTrip)) (dc dna : ℕ),
      ((cancelWalk initial days dc dna).2 = false ↔
        ∃ n, n < days.length ∧ runningDay initial days n = true ∧
          (∀ m, m < n → runningDay initial days m = false) ∧
          (∀ m, m ≤ n → cancelStreakAt initial days dna m ≤ 2)) := by
  intro days
  induction days with
  | nil =>
      intro dc dna
      simp [cancelWalk]
  | cons day rest ih =>
      intro dc dna
      by_cases h3 : 2 < dna
      · have hw : cancelWalk initial (day :: rest) dc dna = (dc, true) := by
          simp only [cancelWalk, if_pos h3]
        rw [hw]
        simp only [Prod.snd]
        constructor
        · intro h; exact absurd h (by simp)
        · rintro ⟨n, _, _, _, hstreak⟩
          have h0 := hstreak 0 (Nat.zero_le n)
          simp only [cancelStreakAt] at h0
          omega
      · have hdna : dna ≤ 2 := by omega
        by_cases hsig : sigMatch initial day = true
        · by_cases hcanc : allCanceled day = true
          · have hw : cancelWalk initial (day :: rest) dc dna
                = cancelWalk initial rest (dc + 1) 0 := by
              simp only [cancelWalk, if_neg h3]
              rw [if_neg (by simp [hsig]), if_pos hcanc]
            rw [hw, ih (dc + 1) 0]
            constructor
            · rintro ⟨n, hn, hr, hfirst, hstreak⟩
              refine ⟨n + 1, by simpa using hn, by rwa [runningDay_cons], ?_, ?_⟩
              · intro m hm
                rcases m with _ | k
                · simp [runningDay, hsig, hcanc]
                · rw [runningDay_cons]
                  exact hfirst k (by omega)
              · intro m hm
                rcases m with _ | k
                · simpa [cancelStreakAt] using hdna
                · rw [cancelStreakAt_cons, if_pos hsig]
                  exact hstreak k (by omega)
            · rintro ⟨n, hn, hr, hfirst, hstreak⟩
              rcases n with _ | k
              · rw [show runningDay initial (day :: rest) 0
                    = (sigMatch initial day && ! allCanceled day) from rfl] at hr
                rw [hsig, hcanc] at hr
                exact absurd hr (by simp)
              · refine ⟨k, by simpa using hn, by rwa [runningDay_cons] at hr, ?_, ?_⟩
                · intro m hm
                  have := hfirst (m + 1) (by omega)
                  rwa [runningDay_cons] at this
                · intro m hm
                  have := hstreak (m + 1) (by omega)
                  rwa [cancelStreakAt_cons, if_pos hsig] at this
          · have hw : cancelWalk initial (day :: rest) dc dna = (dc, false) := by
              simp only [cancelWalk, if_neg h3]
              rw [if_neg (by simp [hsig]), if_neg hcanc]
            rw [hw]
            constructor
            · intro _
              refine ⟨0, by simp, ?_, by omega, ?_⟩
              · rw [show runningDay initial (day :: rest) 0
                    = (sigMatch initial day && ! allCanceled day) from rfl]
                simp [hsig, hcanc]
              · intro m hm
                rcases Nat.le_zero.1 hm with rfl
                simpa [cancelStreakAt] using hdna
            · intro _; rfl
        · have hw : cancelWalk initial (day :: rest) dc dna
              = cancelWalk initial rest dc (dna + 1) := by
            simp only [cancelWalk, if_neg h3]
            rw [if_pos (by simp [hsig])]
          rw [hw, ih dc (dna + 1)]
          constructor
          · rintro ⟨n, hn, hr, hfirst, hstreak⟩
            refine ⟨n + 1, by simpa using hn, by rwa [runningDay_cons], ?_, ?_⟩
            · intro m hm
              rcases m with _ | k
              · rw [show runningDay initial (day :: rest) 0
                    = (sigMatch initial day && ! allCanceled day) from rfl]
                simp [hsig]
              · rw [runningDay_cons]
                exact hfirst k (by omega)
            · intro m hm
              rcases m with _ | k
              · simpa [cancelStreakAt] using hdna
              · rw [cancelStreakAt_cons, if_neg hsig]
                exact hstreak k (by omega)
          · rintro ⟨n, hn, hr, hfirst, hstreak⟩
            rcases n with _ | k
            · rw [show runningDay initial (day :: rest) 0
                  = (sigMatch initial day && ! allCanceled day) from rfl,
                Bool.and_eq_true] at hr
              exact absurd hr.1 hsig
            · refine ⟨k, by simpa using hn, by rwa [runningDay_cons] at hr, ?_, ?_⟩
              · intro m hm
                have := hfirst (m + 1) (by omega)
                rwa [runningDay_cons] at this
              · intro m hm
                have := hstreak (m + 1) (by omega)
                rwa [cancelStreakAt_cons, if_neg hsig] at this

/-- C9 counterexample: for a block with an empty trip set on the queried
date (vacuously "entirely canceled"), the endpoint returns
`{daysCanceled := 0, allDays := false}` immediately instead of walking
backward — the walk the claim mandates would report `(1, true)` here. -/
theorem blockCancelCount_empty_counterexample :
    blockCancelCount [] [[⟨"07:00:00", "5", 0, true⟩]] = (0, false) ∧
    allCanceled [] = true ∧
    cancelWalk [] [[⟨"07:00:00", "5", 0, true⟩]] 1 0 = (1, true) := by
  refine ⟨by rfl, by rfl, by rfl⟩

/-- C9 (amended): the endpoint returns `daysCanceled = 0, allDays = false`
immediately whenever the queried date's trip set is empty or not entirely
canceled; otherwise it walks backward day by day tolerating at most 2
consecutive signature-mismatch days, and `allDays` is true iff the walk
never reaches a day that matches the initial signature and is not entirely
canceled (reachability meaning the mismatch streak stays at most 2 up to
that day). -/
theorem blockCancelCount_spec (initial : List BlockTrip)
    (history : List (List BlockTrip)) :
    (initial = [] ∨ ¬ allCanceled initial = true →
      blockCancelCount initial history = (0, false)) ∧
    (initial ≠ [] → allCanceled initial = true →
      ((blockCancelCount initial history).2 = true ↔
        ¬∃ n, n < history.length ∧ runningDay initial history n = true ∧
          (∀ m, m < n → runningDay initial history m = false) ∧
          (∀ m, m ≤ n → cancelStreakAt initial history 0 m ≤ 2))) := by
  constructor
  · intro h
    unfold blockCancelCount
    rcases h with h | h
    · rw [if_pos (Or.inl (by simp [h]))]
    · rw [if_pos (Or.inr h)]
  · intro hne hall
    unfold blockCancelCount
    rw [if_neg (by
      rintro (h | h)
      · exact hne (List.isEmpty_iff.1 h)
      · exact h hall)]
    rw [← cancelWalk_false_iff initial history 1 0]
    rcases hb : (cancelWalk initial history 1 0).2 with _ | _
    · simp
    · simp

/-- Witness for C9 (amended): a block whose single trip is canceled today
but ran uncancelled (same start/route/direction) the day before yields
`allDays = false`. -/
theorem blockCancelCount_spec_witness :
    (blockCancelCount [⟨"07:00:00", "5", 0, true⟩]
      [[⟨"07:00:00", "5", 0, false⟩]]).2 = false := by
  have h := (blockCancelCount_spec [⟨"07:00:00", "5", 0, true⟩]
    [[⟨"07:00:00", "5", 0, false⟩]]).2 (by decide) (by decide)
  have hnot : ¬ ((blockCancelCount [⟨"07:00:00", "5", 0, true⟩]
      [[⟨"07:00:00", "5", 0, false⟩]]).2 = true) := by
    intro htrue
    refine (h.1 htrue) ⟨0, by decide, by decide, ?_, ?_⟩
    · intro m hm; omega
    · intro m hm
      rcases Nat.le_zero.1 hm with rfl
      decide
  exact Bool.not_eq_true _ ▸ hnot

/-- Invariant proof for the tracer worklist loop: if the expansion log is
duplicate-free and every logged bus is in the processed set, the final log
is duplicate-free — each bus id is expanded at most once, enforced by the
processed-set membership check before expansion. -/
theorem traceLoop_log_nodup (env : TraceEnv) (initialBusIds : List (Option String)) :
    ∀ blocks processed queue log,
      log.Nodup → (∀ x ∈ log, x ∈ processed) →
      (traceLoop env initialBusIds blocks processed queue log).2.Nodup := by
  intro blocks processed queue log
  induction blocks, processed, queue, log using traceLoop.induct env initialBusIds with
  | case1 blocks processed queue log hq =>
      intro hnd _
      rw [traceLoop.eq_def]
      split
      · exact hnd
      · rename_i b h
        rw [hq] at h
        cases h
  | case2 blocks processed queue log b hq rest hcond processed' expanded ih =>
      intro hnd hsub
      rw [traceLoop.eq_def]
      split
      · rename_i h
        rw [hq] at h
        cases h
      · rename_i b2 h
        rw [hq] at h
        injection h with hbe
        subst hbe
        rw [dif_pos hcond]
        refine ih ?_ ?_
        · rw [List.nodup_append]
          refine ⟨hnd, List.nodup_singleton b, ?_⟩
          intro x hx hxs
          rcases List.mem_singleton.1 hxs with rfl
          exact hcond.2 (hsub x hx)
        · intro x hx
          rcases List.mem_append.1 hx with hx | hx
          · exact List.mem_cons_of_mem b (hsub x hx)
          · rcases List.mem_singleton.1 hx with rfl
            exact List.mem_cons_self x _
  | case3 blocks processed queue log b hq rest hcond ih =>
      intro hnd hsub
      rw [traceLoop.eq_def]
      split
      · rename_i h
        rw [hq] at h
        cases h
      · rename_i b2 h
        rw [hq] at h
        injection h with hbe
        subst hbe
        rw [dif_neg hcond]
        exact ih hnd hsub

/-- C8: the block/bus graph tracer's worklist loop is total (it is defined
by well-founded recursion on the measure (unprocessed candidate buses,
stack length), so it terminates on every finite bus↔block relation), its
expansion log never repeats a bus id, and on the synthetic cyclic relation
bus A ↔ block B1 ↔ bus B ↔ block B2 ↔ bus A it returns both blocks after
expanding each of the two buses exactly once. -/
theorem traceBlocks_each_bus_once :
    (∀ (env : TraceEnv) (seedBlockId : String), (traceBlocks env seedBlockId).2.Nodup) ∧
    traceBlocks cyclicTraceEnv "B1" = (["B1", "B2"], ["B", "A"]) := by
  constructor
  · intro env seedBlockId
    exact traceLoop_log_nodup env _ _ _ _ _ List.nodup_nil (by intro x hx; cases hx)
  · have h1 : traceLoop cyclicTraceEnv [some "A", some "B"] ["B1"] [] ["A", "B"] []
        = traceLoop cyclicTraceEnv [some "A", some "B"] ["B1", "B2"] ["B"] ["A", "A"] ["B"] := by
      conv_lhs => rw [traceLoop.eq_def]
      rfl
    have h2 : traceLoop cyclicTraceEnv [some "A", some "B"] ["B1", "B2"] ["B"] ["A", "A"] ["B"]
        = traceLoop cyclicTraceEnv [some "A", some "B"] ["B1", "B2"] ["A", "B"] ["A"]
            ["B", "A"] := by
      conv_lhs => rw [traceLoop.eq_def]
      rfl
    have h3 : traceLoop cyclicTraceEnv [some "A", some "B"] ["B1", "B2"] ["A", "B"] ["A"]
          ["B", "A"]
        = traceLoop cyclicTraceEnv [some "A", some "B"] ["B1", "B2"] ["A", "B"] [] ["B", "A"] := by
      conv_lhs => rw [traceLoop.eq_def]
      rfl
    have h4 : traceLoop cyclicTraceEnv [some "A", some "B"] ["B1", "B2"] ["A", "B"] [] ["B", "A"]
        = (["B1", "B2"], ["B", "A"]) := by
      conv_lhs => rw [traceLoop.eq_def]
      rfl
    show traceLoop cyclicTraceEnv [some "A", some "B"] ["B1"] [] ["A", "B"] []
        = (["B1", "B2"], ["B", "A"])
    rw [h1, h2, h3, h4]

/-- `updateAggregate` increments `totalScheduled` by exactly one. -/
theorem updateAggregate_totalScheduled (a : AggregateWithDelays) (onTime : Option Bool)
    (isCanceled : Bool) (delay : Option ℚ) :
    (updateAggregate a onTime isCanceled delay).counts.totalScheduled
      = a.counts.totalScheduled + 1 := by
  rcases onTime with _ | b
  · cases isCanceled <;> rfl
  · cases b <;> cases isCanceled <;> rfl

/-- An update-if-present keeps the association-list lookup structure: the
found entry for a label is the original one, transformed when the label is
the updated key. -/
theorem find?_updAssocIfPresent (m : List (String × AggregateWithDelays)) (k label : String)
    (f : AggregateWithDelays → AggregateWithDelays) :
    (updAssocIfPresent m k f).find? (fun q => q.1 == label)
      = (m.find? (fun q => q.1 == label)).map
          (fun q => if q.1 == k then (q.1, f q.2) else q) := by
  unfold updAssocIfPresent
  induction m with
  | nil => rfl
  | cons hd tl ih =>
      rw [List.map_cons]
      by_cases hk : (hd.1 == k) = true
      · rw [if_pos hk]
        by_cases hl : (hd.1 == label) = true
        · rw [@List.find?_cons_of_pos _ (fun q => q.1 == label) (hd.1, f hd.2) _ hl,
            @List.find?_cons_of_pos _ (fun q => q.1 == label) hd tl hl]
          show some (hd.1, f hd.2) = some (if (hd.1 == k) = true then (hd.1, f hd.2) else hd)
          rw [if_pos hk]
        · rw [@List.find?_cons_of_neg _ (fun q => q.1 == label) (hd.1, f hd.2) _ hl,
            @List.find?_cons_of_neg _ (fun q => q.1 == label) hd tl hl]
          exact ih
      · rw [if_neg hk]
        by_cases hl : (hd.1 == label) = true
        · rw [@List.find?_cons_of_pos _ (fun q => q.1 == label) hd _ hl,
            @List.find?_cons_of_pos _ (fun q => q.1 == label) hd tl hl]
          show some hd = some (if (hd.1 == k) = true then (hd.1, f hd.2) else hd)
          rw [if_neg hk]
        · rw [@List.find?_cons_of_neg _ (fun q => q.1 == label) hd _ hl,
            @List.find?_cons_of_neg _ (fun q => q.1 == label) hd tl hl]
          exact ih

/-- Updating a bucket at a different label leaves its total unchanged. -/
theorem bucketTotal_upd_other (m : List (String × AggregateWithDelays)) (k label : String)
    (f : AggregateWithDelays → AggregateWithDelays) (hne : ¬ (label == k) = true) :
    bucketTotal (updAssocIfPresent m k f) label = bucketTotal m label := by
  unfold bucketTotal
  rcases hfind : m.find? (fun q => q.1 == label) with _ | q
  · rw [find?_updAssocIfPresent, hfind]
    rfl
  · rw [find?_updAssocIfPresent, hfind]
    have hq : (q.1 == label) = true :=
      @List.find?_some _ (fun q => q.1 == label) q m hfind
    have hql : q.1 = label := by simpa using hq
    have hqk : ¬ (q.1 == k) = true := by
      intro hc
      refine hne ?_
      rw [← hql]
      exact hc
    show (if (q.1 == k) = true then (q.1, f q.2) else q).2.counts.totalScheduled
      = q.2.counts.totalScheduled
    rw [if_neg hqk]

/-- Updating a present bucket at its own label changes its total the way
the update function does. -/
theorem bucketTotal_upd_same (m : List (String × AggregateWithDelays)) (label : String)
    (f : AggregateWithDelays → AggregateWithDelays)
    (hftot : ∀ a, (f a).counts.totalScheduled = a.counts.totalScheduled + 1)
    (hpresent : ((m.find? (fun q => q.1 == label)).isSome) = true) :
    bucketTotal (updAssocIfPresent m label f) label = bucketTotal m label + 1 := by
  unfold bucketTotal
  rcases hfind : m.find? (fun q => q.1 == label) with _ | q
  · rw [hfind] at hpresent
    exact absurd hpresent (by simp)
  · rw [find?_updAssocIfPresent, hfind]
    have hq : (q.1 == label) = true :=
      @List.find?_some _ (fun q => q.1 == label) q m hfind
    show (if (q.1 == label) = true then (q.1, f q.2) else q).2.counts.totalScheduled
      = q.2.counts.totalScheduled + 1
    rw [if_pos hq]
    exact hftot q.2

/-- An update-if-present preserves which labels are present. -/
theorem find?_isSome_updAssocIfPresent (m : List (String × AggregateWithDelays))
    (k label : String) (f : AggregateWithDelays → AggregateWithDelays) :
    (((updAssocIfPresent m k f).find? (fun q => q.1 == label)).isSome)
      = ((m.find? (fun q => q.1 == label)).isSome) := by
  rcases hopt : m.find? (fun q => q.1 == label) with _ | q <;>
    rw [find?_updAssocIfPresent, hopt] <;> rfl

/-- Folding trips through the re-derivation step adds to a present
bucket's total exactly the number of trips that pass the frequency filter
and fall in that bucket. -/
theorem rederive_fold_bucketTotal (p : OTPParams) (label : String) :
    ∀ (trips : List TripRow) (m : List (String × AggregateWithDelays)),
      ((m.find? (fun q => q.1 == label)).isSome) = true →
      bucketTotal (trips.foldl (rederiveStep p) m) label
        = bucketTotal m label
          + ((trips.filter (fun t =>
              matchesFrequency p.frequencyFilter t.route_id
                && (bucketForTrip t == some label))).length) := by
  intro trips
  induction trips with
  | nil => intro m _; simp
  | cons t ts ih =>
      intro m hm
      rw [List.foldl_cons, List.filter_cons]
      by_cases hfreq : matchesFrequency p.frequencyFilter t.route_id = true
      · rcases hb : bucketForTrip t with _ | l
        · have hstep : rederiveStep p m t = m := by
            unfold rederiveStep
            rw [if_neg (by simp [hfreq]), hb]
          rw [hstep, if_neg (by simp [hb]), ih m hm]
        · have hstep : rederiveStep p m t
              = updAssocIfPresent m l (fun a => updateAggregate a
                  (tripOnTime p.threshold p.includeCanceled (isCanceledRow t)
                    (computeMetric t p.metric))
                  (isCanceledRow t) (computeMetric t p.metric)) := by
            unfold rederiveStep
            rw [if_neg (by simp [hfreq]), hb]
          by_cases hl : (l == label) = true
          · have hle : l = label := beq_iff_eq.1 hl
            subst hle
            rw [hstep, if_pos (by simp [hfreq, hb])]
            rw [ih _ (by rw [find?_isSome_updAssocIfPresent]; exact hm)]
            rw [bucketTotal_upd_same m l _ (fun a => updateAggregate_totalScheduled a _ _ _) hm]
            simp only [List.length_cons]
            omega
          · rw [hstep, if_neg (by
              intro hcond
              rw [Bool.and_eq_true] at hcond
              exact hl (by simpa using hcond.2))]
            rw [ih _ (by rw [find?_isSome_updAssocIfPresent]; exact hm)]
            rw [bucketTotal_upd_other m l label _
              (fun hc => hl (beq_iff_eq.2 (beq_iff_eq.1 hc).symm))]
      · have hstep : rederiveStep p m t = m := by
          unfold rederiveStep
          rw [if_pos (by simp [hfreq])]
        rw [hstep, if_neg (by simp [hfreq]), ih m hm]

/-- The day-indexed pool fold with an accumulator equals the accumulator
followed by the pool built from scratch. -/
theorem poolDayStep_acc (env : OTPEnv) (p : OTPParams) :
    ∀ (days : List CalDate) (acc : List TripRow),
      days.foldl (poolDayStep env p) acc = acc ++ days.foldl (poolDayStep env p) [] := by
  intro days
  induction days with
  | nil => intro acc; simp
  | cons d days ih =>
      intro acc
      rw [List.foldl_cons, List.foldl_cons, ih (poolDayStep env p acc d),
        ih (poolDayStep env p [] d)]
      have hstep : ∀ a : List TripRow, poolDayStep env p a d = a ++ dayFilteredTrips env p d := by
        intro a
        unfold poolDayStep dayFilteredTrips
        rcases env.db d with _ | trips
        · simp
        · rfl
      rw [hstep, hstep]
      simp

/-- One day of the re-derivation equals folding the day's filtered trips. -/
theorem rederiveDayStep_eq (env : OTPEnv) (p : OTPParams) (d : CalDate)
    (m : List (String × AggregateWithDelays)) :
    rederiveDayStep env p m d = (dayFilteredTrips env p d).foldl (rederiveStep p) m := by
  unfold rederiveDayStep dayFilteredTrips
  rcases env.db d with _ | trips <;> rfl

/-- The per-day, per-trip re-derivation of the endpoint equals one fold of
the re-derivation step over the flat pool of raw filtered trips. -/
theorem rederivedBuckets_eq_pool (env : OTPEnv) (p : OTPParams) (days : List CalDate) :
    rederivedBuckets env p days = (rederivePool env p days).foldl (rederiveStep p) initBuckets := by
  unfold rederivedBuckets rederivePool
  have hgen : ∀ (l : List CalDate) (m : List (String × AggregateWithDelays)),
      l.foldl (rederiveDayStep env p) m
        = (l.foldl (poolDayStep env p) []).foldl (rederiveStep p) m := by
    intro l
    induction l with
    | nil => intro m; rfl
    | cons d l ih =>
        intro m
        have hstep : poolDayStep env p [] d = dayFilteredTrips env p d := by
          unfold poolDayStep dayFilteredTrips
          rcases env.db d with _ | trips <;> rfl
        rw [List.foldl_cons, List.foldl_cons, ih,
          poolDayStep_acc env p l (poolDayStep env p [] d), hstep,
          List.foldl_append, rederiveDayStep_eq]
  exact hgen days initBuckets

/-- Every time-of-day bucket label is present in the initial bucket map. -/
theorem initBuckets_label_present (label : String) (h : label ∈ timeBuckets.map (fun b => b.1)) :
    ((initBuckets.find? (fun q => q.1 == label)).isSome) = true := by
  have h5 : label = "early" ∨ label = "morning" ∨ label = "midday" ∨ label = "evening"
      ∨ label = "late" := by
    simpa [timeBuckets] using h
  rcases h5 with rfl | rfl | rfl | rfl | rfl <;> rfl

/-- C3 (amended): when a route or frequency filter is active, the
endpoint's bucket-level filtered statistics are re-derived from the raw
per-trip pool only when NO requested day is the current service day — one
fold of the per-trip step over the filtered trip pool, each present
bucket's total counting exactly the filter-matching trips in it; when any
requested day IS the current service day, the filtered bucket statistics
are instead taken verbatim from the merged unfiltered bucket aggregates. -/
theorem otpRouteBuckets_branch (env : OTPEnv) (p : OTPParams) (days : List CalDate)
    (hf : hasFilters p = true) :
    (containsCurrentDay env.now days = true →
      otpRouteBuckets env p days = otpMergedBuckets env p days) ∧
    (containsCurrentDay env.now days = false →
      otpRouteBuckets env p days
          = (rederivePool env p days).foldl (rederiveStep p) initBuckets ∧
        ∀ label, label ∈ timeBuckets.map (fun b => b.1) →
          bucketTotal (otpRouteBuckets env p days) label
            = ((rederivePool env p days).filter (fun t =>
                matchesFrequency p.frequencyFilter t.route_id
                  && (bucketForTrip t == some label))).length) := by
  constructor
  · intro hc
    unfold otpRouteBuckets
    rw [if_neg (by simp [hc])]
  · intro hc
    have hsel : otpRouteBuckets env p days = rederivedBuckets env p days := by
      unfold otpRouteBuckets
      rw [if_pos (by simp [hf, hc])]
    refine ⟨by rw [hsel, rederivedBuckets_eq_pool], ?_⟩
    intro label hlabel
    rw [hsel, rederivedBuckets_eq_pool]
    have h := rederive_fold_bucketTotal p label (rederivePool env p days) initBuckets
      (initBuckets_label_present label hlabel)
    rw [h]
    have hz : bucketTotal initBuckets label = 0 := by
      have h5 : label = "early" ∨ label = "morning" ∨ label = "midday" ∨ label = "evening"
          ∨ label = "late" := by
        simpa [timeBuckets] using hlabel
      rcases h5 with rfl | rfl | rfl | rfl | rfl <;> rfl
    rw [hz]
    omega

/-- The example scheduled start parses to 480 minutes. -/
theorem intervalToMinutes_0800 : intervalToMinutes (some "08:00:00") = some 480 := by
  have hsplit : (splitOnChar ':' ("08:00:00".data)).map jsNumber
      = [some 8, some 0, some 0] := rfl
  simp only [intervalToMinutes]
  rw [if_neg (show ¬ "08:00:00" = "" by decide)]
  simp only [hsplit]
  norm_num

/-- The route-5 example trip falls in the morning bucket. -/
theorem bucketForTrip_route5 : bucketForTrip exampleTripRoute5 = some "morning" := by
  have h : exampleTripRoute5.start_time = some "08:00:00" := rfl
  simp only [bucketForTrip, h, intervalToMinutes_0800]
  norm_num [timeBuckets, List.find?]

/-- The route-7 example trip falls in the morning bucket. -/
theorem bucketForTrip_route7 : bucketForTrip exampleTripRoute7 = some "morning" := by
  have h : exampleTripRoute7.start_time = some "08:00:00" := rfl
  simp only [bucketForTrip, h, intervalToMinutes_0800]
  norm_num [timeBuckets, List.find?]

/-- C3 counterexample: with the route-5 filter active and the single
requested day being the current service day, the endpoint does NOT
re-derive the filtered time-of-day buckets from raw per-trip data: it
reuses the merged unfiltered buckets, whose morning bucket counts 2
scheduled trips (including the route-7 trip the filter excludes), while a
raw re-derivation counts 1. -/
theorem otpRouteBuckets_counterexample :
    hasFilters exampleRouteParams = true ∧
    containsCurrentDay exampleOtpEnv.now [⟨2024, 4, 15⟩] = true ∧
    otpRouteBuckets exampleOtpEnv exampleRouteParams [⟨2024, 4, 15⟩]
      = otpMergedBuckets exampleOtpEnv exampleRouteParams [⟨2024, 4, 15⟩] ∧
    bucketTotal (otpRouteBuckets exampleOtpEnv exampleRouteParams [⟨2024, 4, 15⟩])
      "morning" = 2 ∧
    bucketTotal (rederivedBuckets exampleOtpEnv exampleRouteParams [⟨2024, 4, 15⟩])
      "morning" = 1 := by
  have hsel : otpRouteBuckets exampleOtpEnv exampleRouteParams [⟨2024, 4, 15⟩]
      = otpMergedBuckets exampleOtpEnv exampleRouteParams [⟨2024, 4, 15⟩] := by
    unfold otpRouteBuckets
    rw [if_neg (by decide)]
  have hstep1 : dayAggStep exampleRouteParams emptyAggregateBundle exampleTripRoute5
      = { overall := ⟨⟨1, 0, 0, 0⟩, []⟩,
          routes := [("5:0", ⟨⟨1, 0, 0, 0⟩, []⟩)],
          buckets := [("early", ⟨⟨0, 0, 0, 0⟩, []⟩), ("morning", ⟨⟨1, 0, 0, 0⟩, []⟩),
            ("midday", ⟨⟨0, 0, 0, 0⟩, []⟩), ("evening", ⟨⟨0, 0, 0, 0⟩, []⟩),
            ("late", ⟨⟨0, 0, 0, 0⟩, []⟩)],
          routeOverall := ⟨⟨0, 0, 0, 0⟩, []⟩,
          routeBuckets := initBuckets } := by
    simp only [dayAggStep, bucketForTrip_route5]
    decide
  have hstep2 : dayAggStep exampleRouteParams
      { overall := ⟨⟨1, 0, 0, 0⟩, []⟩,
        routes := [("5:0", ⟨⟨1, 0, 0, 0⟩, []⟩)],
        buckets := [("early", ⟨⟨0, 0, 0, 0⟩, []⟩), ("morning", ⟨⟨1, 0, 0, 0⟩, []⟩),
          ("midday", ⟨⟨0, 0, 0, 0⟩, []⟩), ("evening", ⟨⟨0, 0, 0, 0⟩, []⟩),
          ("late", ⟨⟨0, 0, 0, 0⟩, []⟩)],
        routeOverall := ⟨⟨0, 0, 0, 0⟩, []⟩,
        routeBuckets := initBuckets } exampleTripRoute7
      = { overall := ⟨⟨2, 0, 0, 0⟩, []⟩,
          routes := [("5:0", ⟨⟨1, 0, 0, 0⟩, []⟩), ("7:0", ⟨⟨1, 0, 0, 0⟩, []⟩)],
          buckets := [("early", ⟨⟨0, 0, 0, 0⟩, []⟩), ("morning", ⟨⟨2, 0, 0, 0⟩, []⟩),
            ("midday", ⟨⟨0, 0, 0, 0⟩, []⟩), ("evening", ⟨⟨0, 0, 0, 0⟩, []⟩),
            ("late", ⟨⟨0, 0, 0, 0⟩, []⟩)],
          routeOverall := ⟨⟨0, 0, 0, 0⟩, []⟩,
          routeBuckets := initBuckets } := by
    simp only [dayAggStep, bucketForTrip_route7]
    decide
  have hbundle : computeDayBundle exampleRouteParams [exampleTripRoute5, exampleTripRoute7]
      = { overall := ⟨⟨2, 0, 0, 0⟩, []⟩,
          routes := [("5:0", ⟨⟨1, 0, 0, 0⟩, []⟩), ("7:0", ⟨⟨1, 0, 0, 0⟩, []⟩)],
          buckets := [("early", ⟨⟨0, 0, 0, 0⟩, []⟩), ("morning", ⟨⟨2, 0, 0, 0⟩, []⟩),
            ("midday", ⟨⟨0, 0, 0, 0⟩, []⟩), ("evening", ⟨⟨0, 0, 0, 0⟩, []⟩),
            ("late", ⟨⟨0, 0, 0, 0⟩, []⟩)],
          routeOverall := ⟨⟨0, 0, 0, 0⟩, []⟩,
          routeBuckets := initBuckets } := by
    unfold computeDayBundle
    rw [List.foldl_cons, hstep1, List.foldl_cons, hstep2, List.foldl_nil]
  refine ⟨rfl, by decide, hsel, ?_, ?_⟩
  · rw [hsel]
    have hm0 : otpMergedBuckets exampleOtpEnv exampleRouteParams [⟨2024, 4, 15⟩]
        = (mergeBundles [computeDayBundle exampleRouteParams
            [exampleTripRoute5, exampleTripRoute7]]).buckets := rfl
    rw [hm0, hbundle]
    decide
  · rw [rederivedBuckets_eq_pool]
    have hpool : rederivePool exampleOtpEnv exampleRouteParams [⟨2024, 4, 15⟩]
        = [exampleTripRoute5] := rfl
    rw [hpool,
      rederive_fold_bucketTotal exampleRouteParams "morning" [exampleTripRoute5]
        initBuckets (by rfl)]
    have hfil : (List.filter (fun t =>
        matchesFrequency exampleRouteParams.frequencyFilter t.route_id
          && (bucketForTrip t == some "morning")) [exampleTripRoute5]).length = 1 := by
      simp [List.filter_cons, bucketForTrip_route5, matchesFrequency, exampleRouteParams]
    rw [hfil]
    decide

/-- Witness for C3 (amended): a filtered request whose one day is in the
past re-derives its buckets from the raw trip pool. -/
theorem otpRouteBuckets_branch_witness :
    hasFilters exampleRouteParams = true ∧
    containsCurrentDay exampleOtpEnv.now [⟨2024, 4, 10⟩] = false ∧
    otpRouteBuckets exampleOtpEnv exampleRouteParams [⟨2024, 4, 10⟩]
      = (rederivePool exampleOtpEnv exampleRouteParams [⟨2024, 4, 10⟩]).foldl
          (rederiveStep exampleRouteParams) initBuckets := by
  refine ⟨rfl, by decide, ?_⟩
  exact ((otpRouteBuckets_branch exampleOtpEnv exampleRouteParams [⟨2024, 4, 10⟩] rfl).2
    (by decide)).1

end BusTracker
